import Mathlib

set_option maxRecDepth 2000

/-!
Verification development for a huge-page-aware page allocator and its
exploratory fuzz-driver harness.

The harness (`LLVMFuzzerTestOneInput` in
`tcmalloc/huge_page_aware_allocator_fuzz.cc`) is embedded directly from the
source: its operation decoding, its ledger of outstanding spans (`allocs` /
`allocated`) and its `CHECK` assertions are translated operation for
operation.

The allocator that the harness drives (`HugePageAwareAllocator`) is not part
of the source tree here, so its operations are modelled from the
specification: pages are tracked one by one with a status (free / used /
unmapped), allocation performs a lowest-address first fit with an optional
alignment constraint and falls back to reserving fresh huge pages from a
fallible backing store, deallocation returns a span's pages to the free
state, and the two release engines unmap either only fully-idle huge pages
or, in the breaking variant, arbitrary free pages.
-/

namespace HPAA

/-- Page size in bytes (configuration constant `kPageSize`). -/
def kPageSize : Nat := 8192

/-- Number of pages in one huge page (`kPagesPerHugePage`). -/
def kPagesPerHugePage : Nat := 256

/-- Bytes corresponding to a page count (`Length::in_bytes`). -/
def inBytes (n : Nat) : Nat := n * kPageSize

/-- Status of a single page of reserved address space: backed and not in any
live span (`free`), owned by a live span (`used`), or released back to the
OS without giving up the reservation (`unmapped`). -/
inductive PageSt where
  | free
  | used
  | unmapped
deriving DecidableEq

/-- A span handle: starting page index, page-run length, and the object
count it was requested with. -/
structure Span where
  first : Nat
  numPages : Nat
  numObjects : Nat
deriving DecidableEq

/-- Lifetime predictor mode (`LifetimePredictionOptions::Mode`). -/
inductive LifetimeMode where
  | enabled
  | disabled
  | counterfactual
deriving DecidableEq

/-- Lifetime predictor strategy (`LifetimePredictionOptions::Strategy`). -/
inductive LifetimeStrategy where
  | alwaysShortLivedRegions
  | predictedLifetimeRegions
deriving DecidableEq

/-- Lifetime predictor configuration, immutable per allocator instance. -/
structure LifetimePredictionOptions where
  mode : LifetimeMode
  strategy : LifetimeStrategy
  shortLivedThreshold : Nat
deriving DecidableEq

/-- Snapshot of the accounting counters (`BackingStats`). -/
structure BackingStats where
  system_bytes : Nat
  free_bytes : Nat
  unmapped_bytes : Nat
deriving DecidableEq

/-- Modelled from the spec: the state of one `HugePageAwareAllocator`
instance.  `pages` is the page-granularity status of every page of address
space reserved so far; `osBudget` is the number of huge pages the
OS backing store can still supply before exhaustion; `predictorRecords`
counts the classifications recorded by the lifetime predictor. -/
structure AllocState where
  pages : List PageSt
  osBudget : Nat
  opts : LifetimePredictionOptions
  predictorRecords : Nat
deriving DecidableEq

/-- Number of pages with status `a`. -/
def countSt (a : PageSt) : List PageSt → Nat
  | [] => 0
  | p :: ps => (if p = a then 1 else 0) + countSt a ps

/-- `runIs a ps s len` holds when every page of `[s, s + len)` exists and
has status `a`. -/
def runIs (a : PageSt) : List PageSt → Nat → Nat → Bool
  | _, _, 0 => true
  | [], _, _ + 1 => false
  | p :: ps, 0, len + 1 => p == a && runIs a ps 0 len
  | _ :: ps, s + 1, len + 1 => runIs a ps s (len + 1)

/-- Overwrite the pages of `[s, s + len)` with status `v`. -/
def setRange (v : PageSt) : List PageSt → Nat → Nat → List PageSt
  | [], _, _ => []
  | _ :: ps, 0, len + 1 => v :: setRange v ps 0 len
  | p :: ps, 0, 0 => p :: ps
  | p :: ps, s + 1, len => p :: setRange v ps s len

/-- Lowest page index `s` divisible by `align` at which a run of `len` free
pages starts (first fit, "lowest-address free range"). -/
def findFreeRun (ps : List PageSt) (len align : Nat) : Option Nat :=
  (List.range ps.length).find? (fun s => s % align == 0 && runIs .free ps s len)

/-- Highest such index; used to isolate predicted short-lived traffic away
from the long-lived first-fit area when the predictor steers placement. -/
def findFreeRunTop (ps : List PageSt) (len align : Nat) : Option Nat :=
  ((List.range ps.length).filter
    (fun s => s % align == 0 && runIs .free ps s len)).getLast?

/-- Round `n` up to the next multiple of `a`. -/
def alignUp (n a : Nat) : Nat := ((n + a - 1) / a) * a

/-- Modelled from the spec: `Stats()`, an O(1) snapshot of the running
counters — bytes reserved from the OS, bytes backed but in no live span,
and bytes released but still reserved. -/
def AllocState.stats (st : AllocState) : BackingStats :=
  { system_bytes := inBytes st.pages.length
    free_bytes := inBytes (countSt .free st.pages)
    unmapped_bytes := inBytes (countSt .unmapped st.pages) }

/-- Modelled from the spec: `LifetimePredictor::Classify`.  Under the
always-short-lived strategy every request is short-lived; under the
predicted-lifetime strategy the size signature is compared against the
configured threshold. -/
def classifyShortLived (st : AllocState) (len : Nat) : Bool :=
  match st.opts.strategy with
  | .alwaysShortLivedRegions => true
  | .predictedLifetimeRegions => len ≤ st.opts.shortLivedThreshold

/-- Modelled from the spec: recording one classification in the predictor's
statistics.  Recording happens in `enabled` and `counterfactual` modes and
never in `disabled` mode. -/
def recordPrediction (st : AllocState) : AllocState :=
  match st.opts.mode with
  | .disabled => st
  | _ => { st with predictorRecords := st.predictorRecords + 1 }

/-- Result of an allocation request: a span, an out-of-memory failure from
the backing store, or a caller contract violation (invalid length or
alignment). -/
inductive AllocOutcome where
  | ok (s : Span)
  | oom
  | contractViolation
deriving DecidableEq

/-- Modelled from the spec: the placement decision for one request — an
aligned first-fit free run, except that the run nearest the top of the
address range is used instead when the predictor is `enabled` and
classifies the request as short-lived (isolating predicted churn from the
long-lived first-fit area). -/
def pickRun (st : AllocState) (len align : Nat) : Option Nat :=
  match st.opts.mode, classifyShortLived st len with
  | .enabled, true => findFreeRunTop st.pages len align
  | _, _ => findFreeRun st.pages len align

/-- Huge pages that must be reserved from the backing store to place a run
of `len` pages at the first `align`-aligned index at or after `base`. -/
def hugePagesNeeded (base len align : Nat) : Nat :=
  (alignUp base align + len + (kPagesPerHugePage - 1) - base) / kPagesPerHugePage

/-- Modelled from the spec: `HugePageAwareAllocator::NewAligned` (aligned
allocation; `New` is the same with alignment 1).  Invalid lengths and
alignments (zero, or alignment above one huge page) are caller contract
violations.  Otherwise the allocator places the request at `pickRun`'s
free run and, when no fit exists, falls over to the backing store,
reserving just enough fresh huge pages; exhaustion of the backing store's
budget is reported as `oom` with the state unchanged.  A successful
request records one prediction. -/
def newAligned (st : AllocState) (len align numObjects : Nat) :
    AllocOutcome × AllocState :=
  if align = 0 || decide (kPagesPerHugePage < align) || len = 0 then
    (.contractViolation, st)
  else
    match pickRun st len align with
    | some s =>
        (.ok ⟨s, len, numObjects⟩,
         recordPrediction { st with pages := setRange .used st.pages s len })
    | none =>
        if hugePagesNeeded st.pages.length len align ≤ st.osBudget then
          (.ok ⟨alignUp st.pages.length align, len, numObjects⟩,
           recordPrediction
             { st with
               pages := setRange .used
                 (st.pages ++ List.replicate
                   (hugePagesNeeded st.pages.length len align * kPagesPerHugePage)
                   .free)
                 (alignUp st.pages.length align) len
               osBudget := st.osBudget - hugePagesNeeded st.pages.length len align })
        else (.oom, st)

/-- Modelled from the spec: `HugePageAwareAllocator::New` — unaligned
allocation, i.e. aligned allocation with alignment 1. -/
def newSpan (st : AllocState) (len numObjects : Nat) : AllocOutcome × AllocState :=
  newAligned st len 1 numObjects

/-- Modelled from the spec: `HugePageAwareAllocator::Delete` — returns the
span's page run to the free state (coalescing is implicit at page
granularity). -/
def deleteSpan (st : AllocState) (sp : Span) (numObjects : Nat) : AllocState :=
  { st with pages := setRange .free st.pages sp.first sp.numPages }

/-- Modelled from the spec: the conservative release engine walks the huge
pages in address order (the precise selection order is an implementation
choice); a huge page whose pages are all free is unmapped wholesale, and
the walk stops once the target is met.  The first argument is recursion
fuel, in huge pages. -/
def releaseIdleGo : Nat → List PageSt → Nat → Nat → Nat × List PageSt
  | 0, ps, _, rel => (rel, ps)
  | fuel + 1, ps, target, rel =>
    if target ≤ rel then (rel, ps)
    else
      let hp := ps.take kPagesPerHugePage
      let rest := ps.drop kPagesPerHugePage
      if hp.length == kPagesPerHugePage && hp.all (fun p => p == PageSt.free) then
        let r2 := releaseIdleGo fuel rest target (rel + kPagesPerHugePage)
        (r2.1, List.replicate kPagesPerHugePage .unmapped ++ r2.2)
      else
        let r2 := releaseIdleGo fuel rest target rel
        (r2.1, hp ++ r2.2)

/-- Modelled from the spec: `ReleaseAtLeastNPages` — releases fully-idle
huge pages until at least `n` pages are released or none remain; never
touches a huge page that is not entirely free.  Returns the released page
count, which may be less than `n`. -/
def releaseAtLeastNPages (st : AllocState) (n : Nat) : Nat × AllocState :=
  ((releaseIdleGo st.pages.length st.pages n 0).1,
   { st with pages := (releaseIdleGo st.pages.length st.pages n 0).2 })

/-- Unmap up to `k` free pages, in address order, inside arbitrary (also
partially-used) huge pages.  Returns the number actually unmapped. -/
def markFreeUnmapped : List PageSt → Nat → Nat × List PageSt
  | ps, 0 => (0, ps)
  | [], _ + 1 => (0, [])
  | .free :: ps, k + 1 =>
    ((markFreeUnmapped ps k).1 + 1, .unmapped :: (markFreeUnmapped ps k).2)
  | .used :: ps, k + 1 =>
    ((markFreeUnmapped ps (k + 1)).1, .used :: (markFreeUnmapped ps (k + 1)).2)
  | .unmapped :: ps, k + 1 =>
    ((markFreeUnmapped ps (k + 1)).1, .unmapped :: (markFreeUnmapped ps (k + 1)).2)

/-- Modelled from the spec: `ReleaseAtLeastNPagesBreakingHugepages` — first
the conservative pass, then, if the target was not met, free pages inside
partially-used huge pages are sacrificed as well, up to the target. -/
def releaseAtLeastNPagesBreakingHugepages (st : AllocState) (n : Nat) :
    Nat × AllocState :=
  if n ≤ (releaseIdleGo st.pages.length st.pages n 0).1 then
    ((releaseIdleGo st.pages.length st.pages n 0).1,
     { st with pages := (releaseIdleGo st.pages.length st.pages n 0).2 })
  else
    ((releaseIdleGo st.pages.length st.pages n 0).1 +
       (markFreeUnmapped (releaseIdleGo st.pages.length st.pages n 0).2
         (n - (releaseIdleGo st.pages.length st.pages n 0).1)).1,
     { st with
       pages := (markFreeUnmapped (releaseIdleGo st.pages.length st.pages n 0).2
         (n - (releaseIdleGo st.pages.length st.pages n 0).1)).2 })

/-- Modelled from the spec: `Print` — renders the counters (and, when
`everything` is set, the per-huge-page detail) into text.  A pure rendering
of the state. -/
def printStats (st : AllocState) (everything : Bool) : String :=
  "HugePageAware: system " ++ toString st.stats.system_bytes ++
    " free " ++ toString st.stats.free_bytes ++
    " unmapped " ++ toString st.stats.unmapped_bytes ++
    (if everything then
      " records " ++ toString st.predictorRecords
     else "")

/-- Modelled from the spec: `PrintInPbtxt` — renders the counters in the
structured machine-readable format.  A pure rendering of the state. -/
def printInPbtxt (st : AllocState) : String :=
  "huge_page_aware system_bytes: " ++ toString st.stats.system_bytes ++
    " free_bytes: " ++ toString st.stats.free_bytes ++
    " unmapped_bytes: " ++ toString st.stats.unmapped_bytes

/-- A freshly constructed allocator: no address space reserved yet, a
backing store able to supply `budget` huge pages, and no recorded
predictions. -/
def initAlloc (opts : LifetimePredictionOptions) (budget : Nat) : AllocState :=
  { pages := [], osBudget := budget, opts := opts, predictorRecords := 0 }

/-! ## The fuzz driver, embedded from
`tcmalloc/huge_page_aware_allocator_fuzz.cc` (`LLVMFuzzerTestOneInput`). -/

/-- `std::clamp(v, lo, hi)` on naturals (for `lo ≤ hi`). -/
def cppClamp (v lo hi : Nat) : Nat := max lo (min v hi)

/-- One entry of the driver's ledger (`struct SpanInfo`). -/
structure SpanInfo where
  span : Span
  objects_per_span : Nat
deriving DecidableEq

/-- Placeholder `SpanInfo` used to express C++ vector indexing, which never
reads out of bounds in the embedded driver. -/
def dummyInfo : SpanInfo := ⟨⟨0, 0, 0⟩, 0⟩

/-- The driver's state: the allocator under test, the `allocs` vector of
outstanding spans, and the running page counter `allocated`. -/
structure FuzzState where
  alloc : AllocState
  allocs : List SpanInfo
  allocated : Nat
deriving DecidableEq

/-- Total page count of a ledger. -/
def spanPagesSum (l : List SpanInfo) : Nat :=
  (l.map (fun si => si.span.numPages)).sum

/-- Case 0's length decode: `std::clamp<size_t>(value & 0xFFFF, 1,
kPagesPerHugePage.raw_num() - 1)`. -/
def decodeLength (value : Nat) : Nat :=
  cppClamp (value % 65536) 1 (kPagesPerHugePage - 1)

/-- Case 0's object-count decode: `(value >> 16) & 0xFFFF`. -/
def decodeObjects (value : Nat) : Nat := value / 2 ^ 16 % 65536

/-- Case 0's alignment decode: `std::clamp<size_t>((value >> 32) & 0xFFFF,
1, kPagesPerHugePage.raw_num() - 1)`. -/
def decodeAlign (value : Nat) : Nat :=
  cppClamp (value / 2 ^ 32 % 65536) 1 (kPagesPerHugePage - 1)

/-- Case 0's `use_aligned` decode: `((value >> 48) & 0x1) == 0`. -/
def decodeUseAligned (value : Nat) : Bool := value / 2 ^ 48 % 2 == 0

/-- The allocator call made by case 0: `NewAligned` when `use_aligned`,
otherwise `New`. -/
def allocCall (st : AllocState) (value : Nat) : AllocOutcome × AllocState :=
  if decodeUseAligned value then
    newAligned st (decodeLength value) (decodeAlign value) (decodeObjects value)
  else newSpan st (decodeLength value) (decodeObjects value)

/-- Case 0 of the driver: allocate, `CHECK` the span and its size, then
push it on the ledger and grow `allocated`. -/
def fuzzAlloc (fs : FuzzState) (value : Nat) : Option FuzzState :=
  match allocCall fs.alloc value with
  | (.ok s, a) =>
    if decodeLength value ≤ s.numPages then
      some { alloc := a
             allocs := fs.allocs ++ [⟨s, decodeObjects value⟩]
             allocated := fs.allocated + s.numPages }
    else none         -- CHECK_GE(s->num_pages(), length) failed
  | (.oom, _) => none -- CHECK_CONDITION(s != nullptr) failed
  | (.contractViolation, _) => none

/-- The `SpanInfo` being deallocated in case 1: `allocs[pos]` is swapped
with the last vector slot and then read back from the last slot. -/
def swapPopRemoved (a : List SpanInfo) (value : Nat) : SpanInfo :=
  ((a.set (value % a.length) (a.getD (a.length - 1) dummyInfo)).set
    (a.length - 1) (a.getD (value % a.length) dummyInfo)).getD
    (a.length - 1) dummyInfo

/-- The ledger after case 1: the swap followed by `resize(size() - 1)`. -/
def swapPopRest (a : List SpanInfo) (value : Nat) : List SpanInfo :=
  ((a.set (value % a.length) (a.getD (a.length - 1) dummyInfo)).set
    (a.length - 1) (a.getD (value % a.length) dummyInfo)).take (a.length - 1)

/-- Case 1 of the driver: deallocate the span at index `value % size`
(after the swap-and-pop), shrink `allocated`, and `Delete` it. -/
def fuzzDealloc (fs : FuzzState) (value : Nat) : Option FuzzState :=
  if fs.allocs.isEmpty then some fs
  else
    some { alloc := deleteSpan fs.alloc (swapPopRemoved fs.allocs value).span
             (swapPopRemoved fs.allocs value).objects_per_span
           allocs := swapPopRest fs.allocs value
           allocated := fs.allocated -
             (swapPopRemoved fs.allocs value).span.numPages }

/-- Case 2 of the driver: conservative release of `value & 0xFF` pages. -/
def fuzzRelease (fs : FuzzState) (value : Nat) : Option FuzzState :=
  some { fs with alloc := (releaseAtLeastNPages fs.alloc (value % 256)).2 }

/-- Case 3 of the driver: breaking release of `value & 0xFF` pages with the
released-length lower-bound `CHECK` against the stats snapshot taken just
before. -/
def fuzzReleaseBreaking (fs : FuzzState) (value : Nat) : Option FuzzState :=
  if min (inBytes (value % 256)) fs.alloc.stats.free_bytes ≤
      inBytes (releaseAtLeastNPagesBreakingHugepages fs.alloc (value % 256)).1 then
    some { fs with
      alloc := (releaseAtLeastNPagesBreakingHugepages fs.alloc (value % 256)).2 }
  else none           -- CHECK_GE(released.in_bytes(), ...) failed

/-- Case 4 of the driver: render the stats in pbtxt format into a local
buffer that is then dropped. -/
def fuzzPrintPbtxt (fs : FuzzState) : Option FuzzState :=
  let _outText := printInPbtxt fs.alloc
  some fs

/-- Case 5 of the driver: print the stats (everything when `value` is
even) into a local buffer that is then dropped. -/
def fuzzPrint (fs : FuzzState) (value : Nat) : Option FuzzState :=
  let _outText := printStats fs.alloc (value % 2 == 0)
  some fs

/-- Case 6 of the driver: snapshot the stats and `CHECK` that
`system - free - unmapped` equals the ledger's byte count. -/
def fuzzCheckStats (fs : FuzzState) : Option FuzzState :=
  if fs.alloc.stats.system_bytes - fs.alloc.stats.free_bytes -
      fs.alloc.stats.unmapped_bytes = inBytes fs.allocated then some fs
  else none           -- CHECK_EQ(used_bytes, allocated.in_bytes()) failed

/-- One iteration of the driver loop, embedded case by case from the
`switch (op & 0x7)` in `LLVMFuzzerTestOneInput`.  A failed `CHECK`
(process abort) is `none`. -/
def fuzzStep (fs : FuzzState) (op value : Nat) : Option FuzzState :=
  if op % 8 = 0 then fuzzAlloc fs value
  else if op % 8 = 1 then fuzzDealloc fs value
  else if op % 8 = 2 then fuzzRelease fs value
  else if op % 8 = 3 then fuzzReleaseBreaking fs value
  else if op % 8 = 4 then fuzzPrintPbtxt fs
  else if op % 8 = 5 then fuzzPrint fs value
  else if op % 8 = 6 then fuzzCheckStats fs
  else some fs        -- op & 0x7 == 7: no switch case, fall through

/-- Run the driver loop over a list of decoded `(op, value)` records. -/
def fuzzRun : List (Nat × Nat) → FuzzState → Option FuzzState
  | [], fs => some fs
  | (op, v) :: ops, fs =>
    match fuzzStep fs op v with
    | none => none
    | some fs2 => fuzzRun ops fs2

/-- The driver's initial state for a fresh allocator. -/
def initFuzz (opts : LifetimePredictionOptions) (budget : Nat) : FuzzState :=
  { alloc := initAlloc opts budget, allocs := [], allocated := 0 }

/-- The driver's cleanup loop: walk the ledger, decrement `allocated`, and
`Delete` each outstanding span with its recorded object count. -/
def fuzzCleanup : List SpanInfo → AllocState → Nat → AllocState × Nat
  | [], a, acc => (a, acc)
  | si :: rest, a, acc =>
    fuzzCleanup rest (deleteSpan a si.span si.objects_per_span)
      (acc - si.span.numPages)

/-! ## Basic lemmas about the page-list primitives -/

theorem getElem?_some_lt {ps : List PageSt} {i : Nat} {x : PageSt}
    (h : ps[i]? = some x) : i < ps.length := by
  rw [List.getElem?_eq_some] at h
  exact h.1

theorem countSt_append (a : PageSt) (l₁ l₂ : List PageSt) :
    countSt a (l₁ ++ l₂) = countSt a l₁ + countSt a l₂ := by
  induction l₁ with
  | nil => simp [countSt]
  | cons p ps ih => simp [countSt, ih]; omega

theorem countSt_replicate (a b : PageSt) (n : Nat) :
    countSt a (List.replicate n b) = if b = a then n else 0 := by
  induction n with
  | zero => simp [countSt]
  | succ n ih => simp [List.replicate, countSt, ih]; split <;> omega

theorem countSt_partition (ps : List PageSt) :
    countSt .free ps + countSt .used ps + countSt .unmapped ps = ps.length := by
  induction ps with
  | nil => simp [countSt]
  | cons p ps ih => cases p <;> simp [countSt, ← ih] <;> omega

theorem countSt_all_free (ps : List PageSt)
    (h : ps.all (fun p => p == PageSt.free) = true) :
    countSt .free ps = ps.length ∧ countSt .used ps = 0 ∧
      countSt .unmapped ps = 0 := by
  induction ps with
  | nil => simp [countSt]
  | cons p ps ih =>
    simp only [List.all_cons, Bool.and_eq_true, beq_iff_eq] at h
    obtain ⟨h1, h2⟩ := h
    obtain ⟨i1, i2, i3⟩ := ih h2
    subst h1
    simp [countSt, i1, i2, i3]
    omega

theorem runIs_iff (a : PageSt) :
    ∀ (ps : List PageSt) (s len : Nat),
      runIs a ps s len = true ↔ ∀ i, s ≤ i → i < s + len → ps[i]? = some a
  | ps, s, 0 => by
    simp only [runIs, true_iff]
    intro i h1 h2
    omega
  | [], s, len + 1 => by
    simp only [runIs, Bool.false_eq_true, false_iff]
    intro h
    have := h s (le_refl s) (by omega)
    simp at this
  | p :: ps, 0, len + 1 => by
    simp only [runIs, Bool.and_eq_true, beq_iff_eq, runIs_iff a ps 0 len]
    constructor
    · rintro ⟨hpa, h⟩ i _ hi
      cases i with
      | zero => simp [hpa]
      | succ j => simpa using h j (Nat.zero_le j) (by omega)
    · intro h
      refine ⟨by simpa using h 0 (le_refl 0) (by omega), fun i _ hi => ?_⟩
      simpa using h (i + 1) (by omega) (by omega)
  | p :: ps, s + 1, len + 1 => by
    simp only [runIs, runIs_iff a ps s (len + 1)]
    constructor
    · intro h i hi hilt
      cases i with
      | zero => omega
      | succ j => simpa using h j (by omega) (by omega)
    · intro h i hi hilt
      simpa using h (i + 1) (by omega) (by omega)

theorem length_setRange (v : PageSt) :
    ∀ (ps : List PageSt) (s len : Nat), (setRange v ps s len).length = ps.length
  | [], _, _ => by simp [setRange]
  | p :: ps, 0, len + 1 => by simp [setRange, length_setRange v ps 0 len]
  | p :: ps, 0, 0 => by simp [setRange]
  | p :: ps, s + 1, len => by simp [setRange, length_setRange v ps s len]

theorem setRange_zero (v : PageSt) : ∀ (ps : List PageSt) (s : Nat), setRange v ps s 0 = ps
  | [], _ => rfl
  | _ :: _, 0 => rfl
  | p :: ps, s + 1 => by
    rw [show setRange v (p :: ps) (s + 1) 0 = p :: setRange v ps s 0 from rfl,
      setRange_zero v ps s]

theorem getElem?_setRange (v : PageSt) :
    ∀ (ps : List PageSt) (s len i : Nat),
      (setRange v ps s len)[i]? =
        if s ≤ i ∧ i < s + len ∧ i < ps.length then some v else ps[i]?
  | [], s, len, i => by simp [setRange]
  | p :: ps, 0, 0, i => by
    rw [show setRange v (p :: ps) 0 0 = p :: ps from rfl]
    split
    · omega
    · rfl
  | p :: ps, 0, len + 1, i => by
    cases i with
    | zero =>
      rw [show setRange v (p :: ps) 0 (len + 1) = v :: setRange v ps 0 len from rfl]
      rw [if_pos ⟨Nat.zero_le 0, by omega, by simp⟩]
      simp
    | succ j =>
      have hc : (0 ≤ j + 1 ∧ j + 1 < 0 + (len + 1) ∧ j + 1 < (p :: ps).length) ↔
          (0 ≤ j ∧ j < 0 + len ∧ j < ps.length) := by
        simp only [List.length_cons]
        omega
      rw [show setRange v (p :: ps) 0 (len + 1) = v :: setRange v ps 0 len from rfl]
      simp only [List.getElem?_cons_succ, getElem?_setRange v ps 0 len j, hc]
  | p :: ps, s + 1, len, i => by
    cases i with
    | zero =>
      rw [show setRange v (p :: ps) (s + 1) len = p :: setRange v ps s len from rfl]
      rw [if_neg (by omega)]
      simp
    | succ j =>
      have hc : (s + 1 ≤ j + 1 ∧ j + 1 < s + 1 + len ∧ j + 1 < (p :: ps).length) ↔
          (s ≤ j ∧ j < s + len ∧ j < ps.length) := by
        simp only [List.length_cons]
        omega
      rw [show setRange v (p :: ps) (s + 1) len = p :: setRange v ps s len from rfl]
      simp only [List.getElem?_cons_succ, getElem?_setRange v ps s len j, hc]

theorem countSt_setRange (a v : PageSt) (hav : a ≠ v) :
    ∀ (ps : List PageSt) (s len : Nat), runIs a ps s len = true →
      countSt v (setRange v ps s len) = countSt v ps + len ∧
      countSt a ps = countSt a (setRange v ps s len) + len ∧
      ∀ c, c ≠ a → c ≠ v → countSt c (setRange v ps s len) = countSt c ps
  | [], s, len, h => by
    cases len with
    | zero => simp [setRange, countSt]
    | succ len => simp [runIs] at h
  | p :: ps, 0, 0, h => by simp [setRange]
  | p :: ps, 0, len + 1, h => by
    simp only [runIs, Bool.and_eq_true, beq_iff_eq] at h
    obtain ⟨hpa, h⟩ := h
    subst hpa
    obtain ⟨i1, i2, i3⟩ := countSt_setRange p v hav ps 0 len h
    rw [show setRange v (p :: ps) 0 (len + 1) = v :: setRange v ps 0 len from rfl]
    refine ⟨?_, ?_, ?_⟩
    · simp [countSt, hav]
      omega
    · simp [countSt, Ne.symm hav]
      omega
    · intro c hca hcv
      simp [countSt, i3 c hca hcv, Ne.symm hca, Ne.symm hcv]
  | p :: ps, s + 1, 0, h => by
    rw [show setRange v (p :: ps) (s + 1) 0 = p :: setRange v ps s 0 from rfl]
    rw [setRange_zero]
    simp
  | p :: ps, s + 1, len + 1, h => by
    rw [show runIs a (p :: ps) (s + 1) (len + 1) = runIs a ps s (len + 1) from rfl] at h
    obtain ⟨i1, i2, i3⟩ := countSt_setRange a v hav ps s (len + 1) h
    rw [show setRange v (p :: ps) (s + 1) (len + 1) = p :: setRange v ps s (len + 1) from rfl]
    refine ⟨?_, ?_, ?_⟩
    · simp only [countSt]; omega
    · simp only [countSt]; omega
    · intro c hca hcv
      simp only [countSt, i3 c hca hcv]

theorem findFreeRun_spec {ps : List PageSt} {len align s : Nat}
    (h : findFreeRun ps len align = some s) :
    s % align = 0 ∧ runIs .free ps s len = true := by
  have := List.find?_some h
  simpa using this

theorem findFreeRunTop_spec {ps : List PageSt} {len align s : Nat}
    (h : findFreeRunTop ps len align = some s) :
    s % align = 0 ∧ runIs .free ps s len = true := by
  have hmem := List.mem_of_mem_getLast? h
  have := List.of_mem_filter hmem
  simpa using this

theorem alignUp_mod (n a : Nat) : alignUp n a % a = 0 := by
  simp [alignUp, Nat.mul_mod_left]

theorem le_alignUp (n a : Nat) (ha : 1 ≤ a) : n ≤ alignUp n a := by
  unfold alignUp
  have h1 := Nat.div_add_mod (n + a - 1) a
  have h2 := Nat.mod_lt (n + a - 1) ha
  have h3 : (n + a - 1) / a * a = a * ((n + a - 1) / a) := Nat.mul_comm _ _
  omega

/-! ## Lemmas about the release engines -/

theorem markFreeUnmapped_spec :
    ∀ (ps : List PageSt) (k : Nat),
      (markFreeUnmapped ps k).1 = min k (countSt .free ps) ∧
      countSt .free ps =
        (markFreeUnmapped ps k).1 + countSt .free (markFreeUnmapped ps k).2 ∧
      countSt .used (markFreeUnmapped ps k).2 = countSt .used ps ∧
      countSt .unmapped (markFreeUnmapped ps k).2 =
        countSt .unmapped ps + (markFreeUnmapped ps k).1 ∧
      (markFreeUnmapped ps k).2.length = ps.length
  | ps, 0 => by simp [markFreeUnmapped]
  | [], k + 1 => by simp [markFreeUnmapped, countSt]
  | .free :: ps, k + 1 => by
    obtain ⟨j1, j2, j3, j4, j5⟩ := markFreeUnmapped_spec ps k
    simp [markFreeUnmapped, countSt]
    omega
  | .used :: ps, k + 1 => by
    obtain ⟨j1, j2, j3, j4, j5⟩ := markFreeUnmapped_spec ps (k + 1)
    simp [markFreeUnmapped, countSt]
    omega
  | .unmapped :: ps, k + 1 => by
    obtain ⟨j1, j2, j3, j4, j5⟩ := markFreeUnmapped_spec ps (k + 1)
    simp [markFreeUnmapped, countSt]
    omega

theorem markFreeUnmapped_used_pointwise :
    ∀ (ps : List PageSt) (k i : Nat), ps[i]? = some .used →
      (markFreeUnmapped ps k).2[i]? = some .used
  | ps, 0, i => by simp [markFreeUnmapped]
  | [], k + 1, i => by simp [markFreeUnmapped]
  | .free :: ps, k + 1, i => by
    intro h
    simp only [markFreeUnmapped]
    cases i with
    | zero => simp at h
    | succ j =>
      simp only [List.getElem?_cons_succ] at h ⊢
      exact markFreeUnmapped_used_pointwise ps k j h
  | .used :: ps, k + 1, i => by
    intro h
    simp only [markFreeUnmapped]
    cases i with
    | zero => simpa using h
    | succ j =>
      simp only [List.getElem?_cons_succ] at h ⊢
      exact markFreeUnmapped_used_pointwise ps (k + 1) j h
  | .unmapped :: ps, k + 1, i => by
    intro h
    simp only [markFreeUnmapped]
    cases i with
    | zero => simp at h
    | succ j =>
      simp only [List.getElem?_cons_succ] at h ⊢
      exact markFreeUnmapped_used_pointwise ps (k + 1) j h

/-- Is the `j`-th huge page of `ps` fully present and entirely free? -/
def isIdleBlock (ps : List PageSt) (j : Nat) : Bool :=
  ((ps.drop (j * kPagesPerHugePage)).take kPagesPerHugePage).length ==
      kPagesPerHugePage &&
    ((ps.drop (j * kPagesPerHugePage)).take kPagesPerHugePage).all
      (fun p => p == PageSt.free)

theorem isIdleBlock_drop (ps : List PageSt) (j : Nat) :
    isIdleBlock (ps.drop kPagesPerHugePage) j = isIdleBlock ps (j + 1) := by
  unfold isIdleBlock
  rw [List.drop_drop]
  have h : kPagesPerHugePage + j * kPagesPerHugePage = (j + 1) * kPagesPerHugePage := by
    ring
  rw [h]

theorem releaseIdleGo_spec :
    ∀ (fuel : Nat) (ps : List PageSt) (target rel : Nat),
      ∃ d,
        (releaseIdleGo fuel ps target rel).1 = rel + d ∧
        countSt .free ps = d + countSt .free (releaseIdleGo fuel ps target rel).2 ∧
        countSt .unmapped (releaseIdleGo fuel ps target rel).2 =
          countSt .unmapped ps + d ∧
        countSt .used (releaseIdleGo fuel ps target rel).2 = countSt .used ps ∧
        (releaseIdleGo fuel ps target rel).2.length = ps.length
  | 0, ps, target, rel => ⟨0, by simp [releaseIdleGo]⟩
  | fuel + 1, ps, target, rel => by
    by_cases hstop : target ≤ rel
    · exact ⟨0, by simp [releaseIdleGo, hstop]⟩
    · rw [show releaseIdleGo (fuel + 1) ps target rel =
          (if target ≤ rel then (rel, ps)
           else
             let hp := ps.take kPagesPerHugePage
             let rest := ps.drop kPagesPerHugePage
             if hp.length == kPagesPerHugePage && hp.all (fun p => p == PageSt.free) then
               let r2 := releaseIdleGo fuel rest target (rel + kPagesPerHugePage)
               (r2.1, List.replicate kPagesPerHugePage .unmapped ++ r2.2)
             else
               let r2 := releaseIdleGo fuel rest target rel
               (r2.1, hp ++ r2.2)) from rfl]
      rw [if_neg hstop]
      simp only
      by_cases hcond :
          ((ps.take kPagesPerHugePage).length == kPagesPerHugePage &&
            (ps.take kPagesPerHugePage).all (fun p => p == PageSt.free)) = true
      · rw [if_pos hcond]
        simp only [Bool.and_eq_true, beq_iff_eq] at hcond
        obtain ⟨hlen, hall⟩ := hcond
        obtain ⟨cf, cu, cm⟩ := countSt_all_free _ hall
        obtain ⟨d, h1, h2, h3, h4, h5⟩ :=
          releaseIdleGo_spec fuel (ps.drop kPagesPerHugePage) target
            (rel + kPagesPerHugePage)
        have hsplit : ∀ a, countSt a ps =
            countSt a (ps.take kPagesPerHugePage) +
              countSt a (ps.drop kPagesPerHugePage) := by
          intro a
          conv_lhs => rw [← List.take_append_drop kPagesPerHugePage ps]
          rw [countSt_append]
        refine ⟨kPagesPerHugePage + d, ?_, ?_, ?_, ?_, ?_⟩
        · simp only [h1]; omega
        · rw [hsplit .free, countSt_append, countSt_replicate]
          simp only [cf, hlen]
          simp
          rw [h2]
          ring
        · rw [hsplit .unmapped, countSt_append, countSt_replicate]
          simp only [cm]
          simp
          omega
        · rw [hsplit .used, countSt_append, countSt_replicate]
          simp only [cu]
          simp
          omega
        · have hple : kPagesPerHugePage ≤ ps.length := by
            rw [List.length_take] at hlen
            omega
          rw [List.length_append, List.length_replicate, h5, List.length_drop]
          omega
      · rw [if_neg hcond]
        obtain ⟨d, h1, h2, h3, h4, h5⟩ :=
          releaseIdleGo_spec fuel (ps.drop kPagesPerHugePage) target rel
        have hsplit : ∀ a, countSt a ps =
            countSt a (ps.take kPagesPerHugePage) +
              countSt a (ps.drop kPagesPerHugePage) := by
          intro a
          conv_lhs => rw [← List.take_append_drop kPagesPerHugePage ps]
          rw [countSt_append]
        refine ⟨d, ?_, ?_, ?_, ?_, ?_⟩
        · simpa using h1
        · rw [hsplit .free, countSt_append]
          omega
        · rw [hsplit .unmapped, countSt_append]
          omega
        · rw [hsplit .used, countSt_append]
          omega
        · rw [List.length_append, h5, List.length_take, List.length_drop]
          omega

theorem releaseIdleGo_length (fuel : Nat) (ps : List PageSt) (target rel : Nat) :
    (releaseIdleGo fuel ps target rel).2.length = ps.length := by
  obtain ⟨d, _, _, _, _, h5⟩ := releaseIdleGo_spec fuel ps target rel
  exact h5

theorem getElem?_append_lt {α : Type} {l₁ l₂ : List α} {i : Nat}
    (h : i < l₁.length) : (l₁ ++ l₂)[i]? = l₁[i]? := by
  rw [List.getElem?_append, if_pos h]

theorem releaseIdleGo_unfold (fuel : Nat) (ps : List PageSt) (target rel : Nat) :
    releaseIdleGo (fuel + 1) ps target rel =
      if target ≤ rel then (rel, ps)
      else
        if (ps.take kPagesPerHugePage).length == kPagesPerHugePage &&
            (ps.take kPagesPerHugePage).all (fun p => p == PageSt.free) then
          (((releaseIdleGo fuel (ps.drop kPagesPerHugePage) target
              (rel + kPagesPerHugePage))).1,
            List.replicate kPagesPerHugePage .unmapped ++
              (releaseIdleGo fuel (ps.drop kPagesPerHugePage) target
                (rel + kPagesPerHugePage)).2)
        else
          ((releaseIdleGo fuel (ps.drop kPagesPerHugePage) target rel).1,
            ps.take kPagesPerHugePage ++
              (releaseIdleGo fuel (ps.drop kPagesPerHugePage) target rel).2) := rfl

theorem releaseIdleGo_used_pointwise :
    ∀ (fuel : Nat) (ps : List PageSt) (target rel i : Nat),
      ps[i]? = some .used → (releaseIdleGo fuel ps target rel).2[i]? = ps[i]?
  | 0, ps, target, rel, i => by simp [releaseIdleGo]
  | fuel + 1, ps, target, rel, i => by
    intro h
    rw [releaseIdleGo_unfold]
    by_cases hstop : target ≤ rel
    · rw [if_pos hstop]
    · rw [if_neg hstop]
      have hlt : i < ps.length := getElem?_some_lt h
      by_cases hcond :
          ((ps.take kPagesPerHugePage).length == kPagesPerHugePage &&
            (ps.take kPagesPerHugePage).all (fun p => p == PageSt.free)) = true
      · rw [if_pos hcond]
        simp only [Bool.and_eq_true, beq_iff_eq] at hcond
        obtain ⟨hlen, hall⟩ := hcond
        rcases Nat.lt_or_ge i kPagesPerHugePage with hi | hi
        · exfalso
          have htake : (ps.take kPagesPerHugePage)[i]? = some PageSt.used := by
            rw [List.getElem?_take_of_lt hi]
            exact h
          rw [List.getElem?_eq_some] at htake
          obtain ⟨hlt2, helem⟩ := htake
          have hmem : PageSt.used ∈ ps.take kPagesPerHugePage :=
            helem ▸ List.getElem_mem hlt2
          have := List.all_eq_true.mp hall _ hmem
          simp at this
        · rw [List.getElem?_append_right (by rw [List.length_replicate]; exact hi),
            List.length_replicate]
          have hdrop : (ps.drop kPagesPerHugePage)[i - kPagesPerHugePage]? = ps[i]? := by
            rw [List.getElem?_drop]
            congr 1
            omega
          rw [releaseIdleGo_used_pointwise fuel (ps.drop kPagesPerHugePage) target
            (rel + kPagesPerHugePage) (i - kPagesPerHugePage) (by rw [hdrop]; exact h)]
          exact hdrop
      · rw [if_neg hcond]
        by_cases hi : i < (ps.take kPagesPerHugePage).length
        · rw [getElem?_append_lt hi, List.getElem?_take_of_lt (by
            rw [List.length_take] at hi
            omega)]
        · rw [List.length_take] at hi
          have hKps : kPagesPerHugePage ≤ ps.length := by omega
          have hiK : kPagesPerHugePage ≤ i := by omega
          rw [List.getElem?_append_right (by rw [List.length_take]; omega),
            List.length_take]
          have hmin : min kPagesPerHugePage ps.length = kPagesPerHugePage := by omega
          rw [hmin]
          have hdrop : (ps.drop kPagesPerHugePage)[i - kPagesPerHugePage]? = ps[i]? := by
            rw [List.getElem?_drop]
            congr 1
            omega
          rw [releaseIdleGo_used_pointwise fuel (ps.drop kPagesPerHugePage) target
            rel (i - kPagesPerHugePage) (by rw [hdrop]; exact h)]
          exact hdrop

theorem releaseIdleGo_frame :
    ∀ (fuel : Nat) (ps : List PageSt) (target rel i : Nat),
      isIdleBlock ps (i / kPagesPerHugePage) = false →
      (releaseIdleGo fuel ps target rel).2[i]? = ps[i]?
  | 0, ps, target, rel, i => by simp [releaseIdleGo]
  | fuel + 1, ps, target, rel, i => by
    intro hfr
    rw [releaseIdleGo_unfold]
    by_cases hstop : target ≤ rel
    · rw [if_pos hstop]
    · rw [if_neg hstop]
      by_cases hcond :
          ((ps.take kPagesPerHugePage).length == kPagesPerHugePage &&
            (ps.take kPagesPerHugePage).all (fun p => p == PageSt.free)) = true
      · rw [if_pos hcond]
        rcases Nat.lt_or_ge i kPagesPerHugePage with hi | hi
        · exfalso
          have hdiv : i / kPagesPerHugePage = 0 := by
            simp only [kPagesPerHugePage] at hi ⊢
            omega
          rw [hdiv] at hfr
          have : isIdleBlock ps 0 = true := by
            unfold isIdleBlock
            simpa using hcond
          rw [this] at hfr
          exact Bool.true_eq_false.mp hfr
        · rw [List.getElem?_append_right (by rw [List.length_replicate]; exact hi),
            List.length_replicate]
          have hdrop : (ps.drop kPagesPerHugePage)[i - kPagesPerHugePage]? = ps[i]? := by
            rw [List.getElem?_drop]
            congr 1
            omega
          have hshift : (i - kPagesPerHugePage) / kPagesPerHugePage + 1 =
              i / kPagesPerHugePage := by
            simp only [kPagesPerHugePage] at hi ⊢
            omega
          have hfr2 : isIdleBlock (ps.drop kPagesPerHugePage)
              ((i - kPagesPerHugePage) / kPagesPerHugePage) = false := by
            rw [isIdleBlock_drop, hshift]
            exact hfr
          rw [releaseIdleGo_frame fuel (ps.drop kPagesPerHugePage) target
            (rel + kPagesPerHugePage) (i - kPagesPerHugePage) hfr2]
          exact hdrop
      · rw [if_neg hcond]
        by_cases hi : i < (ps.take kPagesPerHugePage).length
        · rw [getElem?_append_lt hi, List.getElem?_take_of_lt (by
            rw [List.length_take] at hi
            omega)]
        · rw [List.length_take] at hi
          rcases Nat.lt_or_ge ps.length kPagesPerHugePage with hsh | hKps
          · -- the list is shorter than one huge page: nothing beyond it
            have hips : ps.length ≤ i := by omega
            rw [List.getElem?_append_right (by rw [List.length_take]; omega)]
            rw [List.getElem?_eq_none hips,
              List.getElem?_eq_none (by rw [releaseIdleGo_length, List.length_drop]; omega)]
          · have hiK : kPagesPerHugePage ≤ i := by omega
            rw [List.getElem?_append_right (by rw [List.length_take]; omega),
              List.length_take]
            have hmin : min kPagesPerHugePage ps.length = kPagesPerHugePage := by omega
            rw [hmin]
            have hdrop : (ps.drop kPagesPerHugePage)[i - kPagesPerHugePage]? = ps[i]? := by
              rw [List.getElem?_drop]
              congr 1
              omega
            have hshift : (i - kPagesPerHugePage) / kPagesPerHugePage + 1 =
                i / kPagesPerHugePage := by
              simp only [kPagesPerHugePage] at hiK ⊢
              omega
            have hfr2 : isIdleBlock (ps.drop kPagesPerHugePage)
                ((i - kPagesPerHugePage) / kPagesPerHugePage) = false := by
              rw [isIdleBlock_drop, hshift]
              exact hfr
            rw [releaseIdleGo_frame fuel (ps.drop kPagesPerHugePage) target
              rel (i - kPagesPerHugePage) hfr2]
            exact hdrop

theorem releaseIdleGo_noIdle :
    ∀ (fuel : Nat) (ps : List PageSt) (target rel : Nat),
      (∀ j, isIdleBlock ps j = false) →
      releaseIdleGo fuel ps target rel = (rel, ps)
  | 0, ps, target, rel => by intro h; rfl
  | fuel + 1, ps, target, rel => by
    intro h
    rw [releaseIdleGo_unfold]
    by_cases hstop : target ≤ rel
    · rw [if_pos hstop]
    · rw [if_neg hstop]
      have hcond : ((ps.take kPagesPerHugePage).length == kPagesPerHugePage &&
          (ps.take kPagesPerHugePage).all (fun p => p == PageSt.free)) = false := by
        have h0 := h 0
        unfold isIdleBlock at h0
        simpa using h0
      rw [if_neg (by rw [hcond]; exact Bool.false_ne_true)]
      rw [releaseIdleGo_noIdle fuel (ps.drop kPagesPerHugePage) target rel
        (fun j => by rw [isIdleBlock_drop]; exact h (j + 1))]
      simp [List.take_append_drop]

/-! ## Lemmas about allocation -/

@[simp] theorem recordPrediction_pages (st : AllocState) :
    (recordPrediction st).pages = st.pages := by
  unfold recordPrediction
  cases st.opts.mode <;> rfl

@[simp] theorem recordPrediction_osBudget (st : AllocState) :
    (recordPrediction st).osBudget = st.osBudget := by
  unfold recordPrediction
  cases st.opts.mode <;> rfl

@[simp] theorem recordPrediction_opts (st : AllocState) :
    (recordPrediction st).opts = st.opts := by
  unfold recordPrediction
  cases st.opts.mode <;> rfl

theorem pickRun_spec {st : AllocState} {len align s : Nat}
    (h : pickRun st len align = some s) :
    s % align = 0 ∧ runIs .free st.pages s len = true := by
  unfold pickRun at h
  rcases hm : st.opts.mode <;> rcases hc : classifyShortLived st len <;>
    rw [hm, hc] at h <;>
    first
      | exact findFreeRun_spec h
      | exact findFreeRunTop_spec h

theorem pickRun_not_enabled {st : AllocState} {len align : Nat}
    (h : st.opts.mode ≠ .enabled) :
    pickRun st len align = findFreeRun st.pages len align := by
  unfold pickRun
  rcases hm : st.opts.mode <;> rcases hc : classifyShortLived st len <;>
    first
      | rfl
      | exact absurd hm h

theorem pickRun_nil {st : AllocState} {len align : Nat} (h : st.pages = []) :
    pickRun st len align = none := by
  unfold pickRun
  rcases st.opts.mode <;> rcases classifyShortLived st len <;>
    simp [findFreeRun, findFreeRunTop, h]

theorem hugePagesNeeded_pos {base len align : Nat} (hlen : 1 ≤ len)
    (ha : 1 ≤ align) : 1 ≤ hugePagesNeeded base len align := by
  unfold hugePagesNeeded
  have h1 := le_alignUp base align ha
  simp only [kPagesPerHugePage]
  simp only [kPagesPerHugePage] at *
  omega

theorem hugePagesNeeded_bound {base len align : Nat} (ha : 1 ≤ align) :
    alignUp base align + len ≤
      base + hugePagesNeeded base len align * kPagesPerHugePage := by
  unfold hugePagesNeeded
  have h1 := le_alignUp base align ha
  simp only [kPagesPerHugePage] at *
  omega

/-- Inversion of a successful (aligned) allocation: the span covers exactly
`len` pages, starts on an aligned index, and the new page list is the old
one (possibly extended by fresh free pages from the backing store) with the
span's run, previously free, now marked used. -/
theorem newAligned_ok {st : AllocState} {len align k : Nat} {s : Span}
    {st' : AllocState} (h : newAligned st len align k = (.ok s, st')) :
    s.numPages = len ∧ s.numObjects = k ∧ s.first % align = 0 ∧
    st'.opts = st.opts ∧
    ∃ ps0 : List PageSt,
      st'.pages = setRange .used ps0 s.first len ∧
      runIs .free ps0 s.first len = true ∧
      st.pages.length ≤ ps0.length ∧
      (∀ i, i < st.pages.length → ps0[i]? = st.pages[i]?) ∧
      countSt .used ps0 = countSt .used st.pages := by
  unfold newAligned at h
  split at h
  · simp at h
  · rename_i hguard
    have hguard' : ¬(align = 0 ∨ kPagesPerHugePage < align ∨ len = 0) := by
      intro hc
      apply hguard
      rcases hc with hc | hc | hc <;> simp [hc]
    push_neg at hguard'
    obtain ⟨ha0, _, _⟩ := hguard'
    have ha : 1 ≤ align := by omega
    split at h
    · rename_i s0 hpick
      obtain ⟨hmod, hrun⟩ := pickRun_spec hpick
      rw [Prod.mk.injEq] at h
      obtain ⟨hs, hst⟩ := h
      cases hs
      refine ⟨rfl, rfl, hmod, by rw [← hst]; simp, st.pages, ?_, hrun, le_refl _,
        fun i _ => rfl, rfl⟩
      rw [← hst]
      simp
    · split at h
      · rename_i hpick hbudget
        rw [Prod.mk.injEq] at h
        obtain ⟨hs, hst⟩ := h
        cases hs
        refine ⟨rfl, rfl, alignUp_mod _ _, by rw [← hst]; simp,
          st.pages ++ List.replicate
            (hugePagesNeeded st.pages.length len align * kPagesPerHugePage) .free,
          ?_, ?_, by simp, ?_, ?_⟩
        · rw [← hst]
          simp
        · rw [runIs_iff]
          intro i h1 h2
          replace h1 : alignUp st.pages.length align ≤ i := h1
          replace h2 : i < alignUp st.pages.length align + len := h2
          have hbase := le_alignUp st.pages.length align ha
          have hub := @hugePagesNeeded_bound st.pages.length len align ha
          rw [List.getElem?_append_right (by omega), List.getElem?_replicate,
            if_pos (by omega)]
        · intro i hi
          exact getElem?_append_lt hi
        · rw [countSt_append, countSt_replicate]
          simp
      · simp at h

theorem newAligned_oom (st : AllocState) (len align k : Nat) :
    (newAligned st len align k).1 = .oom → (newAligned st len align k).2 = st := by
  unfold newAligned
  split
  · intro h
    simp at h
  · split
    · intro h
      simp at h
    · split
      · intro h
        simp at h
      · intro h
        rfl

/-- On a fresh allocator whose backing store is already exhausted, any
valid allocation request fails with `oom` and the state is unchanged. -/
theorem newAligned_oom_of {st : AllocState} {len align k : Nat}
    (hpages : st.pages = []) (hbud : st.osBudget = 0) (hlen : 1 ≤ len)
    (ha : 1 ≤ align) (hK : align ≤ kPagesPerHugePage) :
    newAligned st len align k = (.oom, st) := by
  unfold newAligned
  rw [if_neg (by simp; omega)]
  rw [pickRun_nil hpages]
  simp only [hpages, hbud, List.length_nil]
  rw [if_neg (by
    have := @hugePagesNeeded_pos 0 len align hlen ha
    omega)]

theorem newAligned_contract {st : AllocState} {len align k : Nat}
    (h : kPagesPerHugePage < align) :
    newAligned st len align k = (.contractViolation, st) := by
  unfold newAligned
  rw [if_pos (by simp [h])]

/-! ## Core results about the release engines at the allocator level -/

theorem inBytes_min (a b : Nat) : inBytes (min a b) = min (inBytes a) (inBytes b) := by
  simp only [inBytes, kPageSize]
  omega

theorem inBytes_le {a b : Nat} (h : a ≤ b) : inBytes a ≤ inBytes b := by
  simp only [inBytes, kPageSize]
  omega

/-- The breaking release returns at least the smaller of the request and
the free page count at call time. -/
theorem releaseBreaking_min (st : AllocState) (n : Nat) :
    min n (countSt .free st.pages) ≤
      (releaseAtLeastNPagesBreakingHugepages st n).1 := by
  unfold releaseAtLeastNPagesBreakingHugepages
  obtain ⟨d, h1, h2, h3, h4, h5⟩ := releaseIdleGo_spec st.pages.length st.pages n 0
  split
  · rename_i hn
    simp only
    omega
  · rename_i hn
    obtain ⟨m1, m2, m3, m4, m5⟩ :=
      markFreeUnmapped_spec (releaseIdleGo st.pages.length st.pages n 0).2
        (n - (releaseIdleGo st.pages.length st.pages n 0).1)
    simp only
    omega

theorem block_div (i j : Nat) :
    i / kPagesPerHugePage = j ↔
      j * kPagesPerHugePage ≤ i ∧ i < j * kPagesPerHugePage + kPagesPerHugePage := by
  simp only [kPagesPerHugePage]
  omega

theorem isIdleBlock_all_free {ps : List PageSt} {j i : Nat}
    (hb : isIdleBlock ps j = true)
    (h1 : j * kPagesPerHugePage ≤ i)
    (h2 : i < j * kPagesPerHugePage + kPagesPerHugePage) :
    ps[i]? = some .free := by
  unfold isIdleBlock at hb
  simp only [Bool.and_eq_true, beq_iff_eq] at hb
  obtain ⟨hlen, hall⟩ := hb
  have hidx : i - j * kPagesPerHugePage < kPagesPerHugePage := by omega
  have hb2 : ((ps.drop (j * kPagesPerHugePage)).take
      kPagesPerHugePage)[i - j * kPagesPerHugePage]? = ps[i]? := by
    rw [List.getElem?_take_of_lt hidx, List.getElem?_drop]
    congr 1
    omega
  have hlt : i - j * kPagesPerHugePage <
      ((ps.drop (j * kPagesPerHugePage)).take kPagesPerHugePage).length := by
    rw [hlen]
    exact hidx
  rw [List.getElem?_eq_getElem hlt] at hb2
  have hmem := List.getElem_mem hlt
  have hfree := List.all_eq_true.mp hall _ hmem
  rw [beq_iff_eq] at hfree
  rw [← hb2, hfree]

theorem isIdleBlock_false_of_used {ps : List PageSt} {i i' : Nat}
    (hsame : i' / kPagesPerHugePage = i / kPagesPerHugePage)
    (hu : ps[i']? = some .used) :
    isIdleBlock ps (i / kPagesPerHugePage) = false := by
  by_contra hb
  rw [Bool.not_eq_false] at hb
  have hrange := (block_div i' (i / kPagesPerHugePage)).mp hsame
  have hfree := isIdleBlock_all_free hb hrange.1 hrange.2
  rw [hu] at hfree
  simp at hfree

/-- `ReleaseAtLeastNPages` never touches a page whose huge page also holds
a used page. -/
theorem releaseAtLeastNPages_frame (st : AllocState) (n i : Nat)
    (h : isIdleBlock st.pages (i / kPagesPerHugePage) = false) :
    (releaseAtLeastNPages st n).2.pages[i]? = st.pages[i]? := by
  unfold releaseAtLeastNPages
  exact releaseIdleGo_frame st.pages.length st.pages n 0 i h

/-- When every free page shares its huge page with a used page, the
conservative release releases nothing and changes nothing. -/
theorem releaseAtLeastNPages_zero (st : AllocState) (n : Nat)
    (h : ∀ i, st.pages[i]? = some .free →
      ∃ i', i' / kPagesPerHugePage = i / kPagesPerHugePage ∧
        st.pages[i']? = some .used) :
    (releaseAtLeastNPages st n).1 = 0 ∧ (releaseAtLeastNPages st n).2 = st := by
  have hnoidle : ∀ j, isIdleBlock st.pages j = false := by
    intro j
    by_contra hb
    rw [Bool.not_eq_false] at hb
    have hfree : st.pages[j * kPagesPerHugePage]? = some .free :=
      isIdleBlock_all_free hb (le_refl _)
        (by simp only [kPagesPerHugePage]; omega)
    obtain ⟨i', hsame, hused⟩ := h _ hfree
    have hdiv : (j * kPagesPerHugePage) / kPagesPerHugePage = j := by
      simp only [kPagesPerHugePage]
      omega
    rw [hdiv] at hsame
    have hrange := (block_div i' j).mp hsame
    have := isIdleBlock_all_free hb hrange.1 hrange.2
    rw [hused] at this
    simp at this
  unfold releaseAtLeastNPages
  rw [releaseIdleGo_noIdle st.pages.length st.pages n 0 hnoidle]
  exact ⟨rfl, rfl⟩

/-! ## List helpers for the driver's swap-and-pop deallocation -/

theorem take_set_ge {α : Type} :
    ∀ (l : List α) (i k : Nat) (v : α), k ≤ i → (l.set i v).take k = l.take k
  | [], i, k, v, h => by simp
  | p :: ps, i, 0, v, h => by simp
  | p :: ps, 0, k + 1, v, h => by omega
  | p :: ps, i + 1, k + 1, v, h => by
    show (p :: ps.set i v).take (k + 1) = (p :: ps).take (k + 1)
    rw [List.take_succ_cons, List.take_succ_cons, take_set_ge ps i k v (by omega)]

theorem getD_eq_getElem {α : Type} (l : List α) (i : Nat) (d : α)
    (h : i < l.length) : l.getD i d = l[i] := by
  rw [List.getD_eq_getElem?_getD, List.getElem?_eq_getElem h]
  rfl

theorem getD_set_self {α : Type} :
    ∀ (l : List α) (i : Nat) (v d : α), i < l.length → (l.set i v).getD i d = v
  | [], i, v, d, h => by simp at h
  | p :: ps, 0, v, d, h => rfl
  | p :: ps, i + 1, v, d, h => by
    show (p :: ps.set i v).getD (i + 1) d = v
    exact getD_set_self ps i v d (by simpa using h)

theorem set_getD_self {α : Type} :
    ∀ (l : List α) (i : Nat) (d : α), l.set i (l.getD i d) = l
  | [], i, d => by simp
  | p :: ps, 0, d => rfl
  | p :: ps, i + 1, d => by
    show p :: ps.set i (ps.getD i d) = p :: ps
    rw [set_getD_self ps i d]

theorem dropLast_append_getD {α : Type} :
    ∀ (l : List α) (d : α), l ≠ [] →
      l.dropLast ++ [l.getD (l.length - 1) d] = l
  | [], d, h => absurd rfl h
  | [x], d, h => by simp
  | x :: y :: tl, d, h => by
    have ih := dropLast_append_getD (y :: tl) d (by simp)
    show x :: (y :: tl).dropLast ++ [(y :: tl).getD ((y :: tl).length - 1) d] =
      x :: y :: tl
    rw [List.cons_append, ih]

theorem swapRemove_perm {α : Type} (a : List α) (pos : Nat) (d : α)
    (h : pos < a.length) :
    ((a.set pos (a.getD (a.length - 1) d)).take (a.length - 1)).Perm
      (a.eraseIdx pos) := by
  rcases Nat.lt_or_ge pos (a.length - 1) with hlt | hge
  · rw [List.set_eq_take_cons_drop _ h, List.eraseIdx_eq_take_drop_succ,
      List.take_append_eq_append_take]
    have hlt1 : (a.take pos).length = pos := by
      rw [List.length_take]
      omega
    rw [List.take_take]
    rw [show min (a.length - 1) pos = pos from by omega]
    apply List.Perm.append_left
    rw [hlt1]
    have hD : (a.drop (pos + 1)).length = a.length - pos - 1 := by
      rw [List.length_drop]
      omega
    have hne : a.drop (pos + 1) ≠ [] := by
      intro hc
      rw [hc] at hD
      simp at hD
      omega
    have hstep : a.length - 1 - pos = (a.length - pos - 2) + 1 := by omega
    rw [hstep, List.take_succ_cons]
    have htake : (a.drop (pos + 1)).take (a.length - pos - 2) =
        (a.drop (pos + 1)).dropLast := by
      rw [List.dropLast_eq_take, hD,
        show a.length - pos - 1 - 1 = a.length - pos - 2 from by omega]
    rw [htake]
    have hgetD : (a.drop (pos + 1)).getD ((a.drop (pos + 1)).length - 1) d =
        a.getD (a.length - 1) d := by
      rw [List.getD_eq_getElem?_getD, List.getD_eq_getElem?_getD,
        List.getElem?_drop, hD]
      congr 2
      omega
    have hfull := dropLast_append_getD (a.drop (pos + 1)) d hne
    rw [hgetD] at hfull
    have hperm : (a.getD (a.length - 1) d :: (a.drop (pos + 1)).dropLast).Perm
        ((a.drop (pos + 1)).dropLast ++ [a.getD (a.length - 1) d]) :=
      (List.perm_append_singleton _ _).symm
    rw [hfull] at hperm
    exact hperm
  · have hpos : pos = a.length - 1 := by omega
    subst hpos
    rw [set_getD_self, List.eraseIdx_eq_take_drop_succ]
    have hdrop : a.drop (a.length - 1 + 1) = [] := by
      apply List.drop_eq_nil_of_le
      omega
    rw [hdrop, List.append_nil]

/-! ## The driver's well-formedness invariant -/

/-- The page-index ranges of two spans do not intersect. -/
def SpansDisjoint (a b : Span) : Prop :=
  ∀ i, a.first ≤ i → i < a.first + a.numPages →
    ¬(b.first ≤ i ∧ i < b.first + b.numPages)

theorem SpansDisjoint.symm {a b : Span} (h : SpansDisjoint a b) :
    SpansDisjoint b a :=
  fun i h1 h2 hc => h i hc.1 hc.2 ⟨h1, h2⟩

/-- Every two distinct ledger entries hold disjoint spans. -/
def PairwiseDisjoint (l : List SpanInfo) : Prop :=
  l.Pairwise (fun x y => SpansDisjoint x.span y.span)

/-- Well-formedness of a driver state: every ledger span's pages are
`used`, ledger spans are pairwise disjoint, the used-page count equals the
ledger's page total, and the driver's `allocated` counter agrees with it. -/
structure WF (fs : FuzzState) : Prop where
  spans_used : ∀ si ∈ fs.allocs,
    runIs .used fs.alloc.pages si.span.first si.span.numPages = true
  disj : PairwiseDisjoint fs.allocs
  used_count : countSt .used fs.alloc.pages = spanPagesSum fs.allocs
  ledger : fs.allocated = spanPagesSum fs.allocs

theorem spanPagesSum_append (l₁ l₂ : List SpanInfo) :
    spanPagesSum (l₁ ++ l₂) = spanPagesSum l₁ + spanPagesSum l₂ := by
  simp [spanPagesSum]

theorem spanPagesSum_perm {l₁ l₂ : List SpanInfo} (h : l₁.Perm l₂) :
    spanPagesSum l₁ = spanPagesSum l₂ :=
  (h.map _).sum_eq

theorem getD_cons_decomp {α : Type} (a : List α) (pos : Nat) (d : α)
    (h : pos < a.length) :
    a = a.take pos ++ a.getD pos d :: a.drop (pos + 1) := by
  conv_lhs => rw [← set_getD_self a pos d]
  exact List.set_eq_take_cons_drop _ h

theorem spanPagesSum_eraseIdx (a : List SpanInfo) (pos : Nat)
    (h : pos < a.length) :
    spanPagesSum a = spanPagesSum (a.eraseIdx pos) +
      (a.getD pos dummyInfo).span.numPages := by
  conv_lhs => rw [getD_cons_decomp a pos dummyInfo h]
  rw [List.eraseIdx_eq_take_drop_succ, spanPagesSum_append, spanPagesSum_append]
  simp [spanPagesSum]
  omega

theorem disj_of_mem_eraseIdx {a : List SpanInfo} {pos : Nat}
    (hd : PairwiseDisjoint a) (h : pos < a.length) :
    ∀ si ∈ a.eraseIdx pos,
      SpansDisjoint (a.getD pos dummyInfo).span si.span := by
  intro si hsi
  have hdecomp := getD_cons_decomp a pos dummyInfo h
  rw [List.eraseIdx_eq_take_drop_succ] at hsi
  rw [hdecomp] at hd
  unfold PairwiseDisjoint at hd
  rw [List.pairwise_append] at hd
  obtain ⟨p1, p2, p12⟩ := hd
  rw [List.pairwise_cons] at p2
  rcases List.mem_append.mp hsi with h1 | h2
  · exact (p12 si h1 _ (List.mem_cons_self _ _)).symm
  · exact p2.1 si h2

theorem runIs_of_pointwise {a : PageSt} {ps qs : List PageSt} {s len : Nat}
    (hrun : runIs a ps s len = true)
    (hpt : ∀ i : Nat, ps[i]? = some a → qs[i]? = some a) :
    runIs a qs s len = true := by
  rw [runIs_iff] at hrun ⊢
  intro i h1 h2
  exact hpt i (hrun i h1 h2)

/-- A successful allocation extends a well-formed ledger: the new span's
pages are used, it is disjoint from every outstanding span, and the
used-page count grows by exactly the span's page count. -/
theorem newAligned_wf {st : AllocState} {len align k : Nat} {s : Span}
    {a : AllocState} (hcall : newAligned st len align k = (.ok s, a))
    (allocs : List SpanInfo)
    (hsu : ∀ si ∈ allocs, runIs .used st.pages si.span.first si.span.numPages = true)
    (hdisj : PairwiseDisjoint allocs)
    (hcnt : countSt .used st.pages = spanPagesSum allocs) :
    (∀ si ∈ allocs ++ [⟨s, k⟩],
      runIs .used a.pages si.span.first si.span.numPages = true) ∧
    PairwiseDisjoint (allocs ++ [⟨s, k⟩]) ∧
    countSt .used a.pages = spanPagesSum (allocs ++ [⟨s, k⟩]) := by
  obtain ⟨hnp, hno, hmod, hopts, ps0, hpg, hfree, hlen0, hpre, hcnt0⟩ :=
    newAligned_ok hcall
  have hfree' := (runIs_iff _ _ _ _).mp hfree
  have hused_ps0 : ∀ si ∈ allocs,
      runIs .used ps0 si.span.first si.span.numPages = true := by
    intro si hm
    apply runIs_of_pointwise (hsu si hm)
    intro i hi
    rw [hpre i (getElem?_some_lt hi)]
    exact hi
  have hused_ps0' : ∀ si ∈ allocs, ∀ i, si.span.first ≤ i →
      i < si.span.first + si.span.numPages → ps0[i]? = some .used := by
    intro si hm
    exact (runIs_iff _ _ _ _).mp (hused_ps0 si hm)
  have hdisj_new : ∀ si ∈ allocs, SpansDisjoint si.span s := by
    intro si hm i h1 h2 hc
    have hu := hused_ps0' si hm i h1 h2
    have hf := hfree' i hc.1 (by omega)
    rw [hu] at hf
    simp at hf
  have hpages_pt : ∀ i, ¬(s.first ≤ i ∧ i < s.first + len) →
      a.pages[i]? = ps0[i]? := by
    intro i hni
    rw [hpg, getElem?_setRange, if_neg (by tauto)]
  refine ⟨?_, ?_, ?_⟩
  · intro si hm
    rcases List.mem_append.mp hm with hold | hnew
    · rw [runIs_iff]
      intro i h1 h2
      have hni := hdisj_new si hold i h1 h2
      rw [hpages_pt i (by rw [hnp] at hni; tauto)]
      exact hused_ps0' si hold i h1 h2
    · have hsi : si = ⟨s, k⟩ := by simpa using hnew
      subst hsi
      rw [runIs_iff]
      intro i h1 h2
      rw [hnp] at h2
      have hlt : i < ps0.length := getElem?_some_lt (hfree' i h1 h2)
      rw [hpg, getElem?_setRange, if_pos ⟨h1, h2, hlt⟩]
  · unfold PairwiseDisjoint
    rw [List.pairwise_append]
    refine ⟨hdisj, by simp, ?_⟩
    intro x hx y hy
    have hy' : y = ⟨s, k⟩ := by simpa using hy
    subst hy'
    exact hdisj_new x hx
  · have hcount := (countSt_setRange .free .used (by simp) ps0 s.first len hfree).1
    rw [hpg, hcount, hcnt0, hcnt, spanPagesSum_append]
    simp [spanPagesSum, hnp]

theorem initFuzz_wf (opts : LifetimePredictionOptions) (budget : Nat) :
    WF (initFuzz opts budget) := by
  constructor <;> simp [initFuzz, initAlloc, spanPagesSum, countSt, PairwiseDisjoint]

theorem fuzzAlloc_wf {fs fs' : FuzzState} {v : Nat} (hwf : WF fs)
    (h : fuzzAlloc fs v = some fs') : WF fs' := by
  unfold fuzzAlloc at h
  split at h
  · rename_i s a heq
    split at h
    · rw [Option.some.injEq] at h
      subst h
      obtain ⟨al, hal⟩ : ∃ al,
          newAligned fs.alloc (decodeLength v) al (decodeObjects v) = (.ok s, a) := by
        unfold allocCall at heq
        split at heq
        · exact ⟨decodeAlign v, heq⟩
        · exact ⟨1, heq⟩
      obtain ⟨w1, w2, w3⟩ :=
        newAligned_wf hal fs.allocs hwf.spans_used hwf.disj hwf.used_count
      refine ⟨w1, w2, w3, ?_⟩
      have hnp := (newAligned_ok hal).1
      show fs.allocated + s.numPages = spanPagesSum (fs.allocs ++ [⟨s, decodeObjects v⟩])
      rw [spanPagesSum_append, ← hwf.ledger]
      simp [spanPagesSum]
    · exact absurd h (by simp)
  · exact absurd h (by simp)
  · exact absurd h (by simp)

theorem fuzzDealloc_wf {fs fs' : FuzzState} {v : Nat} (hwf : WF fs)
    (h : fuzzDealloc fs v = some fs') : WF fs' := by
  unfold fuzzDealloc at h
  split at h
  · rw [Option.some.injEq] at h
    subst h
    exact hwf
  · rename_i hne
    rw [Option.some.injEq] at h
    subst h
    have hlen : 0 < fs.allocs.length := by
      rcases hl : fs.allocs with _ | ⟨y, ys⟩
      · rw [hl] at hne
        exact absurd rfl hne
      · simp
    have hpos : v % fs.allocs.length < fs.allocs.length := Nat.mod_lt _ hlen
    have hrem : swapPopRemoved fs.allocs v =
        fs.allocs.getD (v % fs.allocs.length) dummyInfo := by
      unfold swapPopRemoved
      exact getD_set_self _ _ _ _ (by rw [List.length_set]; omega)
    have hrest : swapPopRest fs.allocs v =
        (fs.allocs.set (v % fs.allocs.length)
          (fs.allocs.getD (fs.allocs.length - 1) dummyInfo)).take
          (fs.allocs.length - 1) := by
      unfold swapPopRest
      exact take_set_ge _ _ _ _ (le_refl _)
    have hperm : (swapPopRest fs.allocs v).Perm
        (fs.allocs.eraseIdx (v % fs.allocs.length)) := by
      rw [hrest]
      exact swapRemove_perm fs.allocs (v % fs.allocs.length) dummyInfo hpos
    have hx_mem : fs.allocs.getD (v % fs.allocs.length) dummyInfo ∈ fs.allocs := by
      rw [getD_eq_getElem _ _ _ hpos]
      exact List.getElem_mem hpos
    have hx_used := hwf.spans_used _ hx_mem
    have hdisj_er := disj_of_mem_eraseIdx hwf.disj hpos
    have hmem2 : ∀ si ∈ swapPopRest fs.allocs v,
        si ∈ fs.allocs.eraseIdx (v % fs.allocs.length) :=
      fun si hsi => hperm.mem_iff.mp hsi
    have hmem3 : ∀ si ∈ fs.allocs.eraseIdx (v % fs.allocs.length),
        si ∈ fs.allocs :=
      fun si hsi => (List.eraseIdx_sublist _ _).subset hsi
    have hcount := (countSt_setRange .used .free (by simp) fs.alloc.pages
      (swapPopRemoved fs.allocs v).span.first
      (swapPopRemoved fs.allocs v).span.numPages (by rw [hrem]; exact hx_used)).2.1
    have hsum := spanPagesSum_eraseIdx fs.allocs (v % fs.allocs.length) hpos
    have hsumperm := spanPagesSum_perm hperm
    constructor
    · intro si hsi
      have hdisj_si : SpansDisjoint (swapPopRemoved fs.allocs v).span si.span := by
        rw [hrem]
        exact hdisj_er si (hmem2 si hsi)
      rw [runIs_iff]
      intro i h1 h2
      have hu := (runIs_iff _ _ _ _).mp
        (hwf.spans_used si (hmem3 si (hmem2 si hsi))) i h1 h2
      have hni := hdisj_si.symm i h1 h2
      show (setRange .free fs.alloc.pages (swapPopRemoved fs.allocs v).span.first
        (swapPopRemoved fs.allocs v).span.numPages)[i]? = some .used
      rw [getElem?_setRange, if_neg (by tauto)]
      exact hu
    · show PairwiseDisjoint (swapPopRest fs.allocs v)
      have hpw : PairwiseDisjoint
          (fs.allocs.eraseIdx (v % fs.allocs.length)) :=
        List.Pairwise.sublist (List.eraseIdx_sublist _ _) hwf.disj
      exact (hperm.pairwise_iff (fun hxy => hxy.symm)).mpr hpw
    · show countSt .used (setRange .free fs.alloc.pages
        (swapPopRemoved fs.allocs v).span.first
        (swapPopRemoved fs.allocs v).span.numPages) = spanPagesSum (swapPopRest fs.allocs v)
      have hused := hwf.used_count
      rw [hrem] at hcount
      rw [hrem]
      omega
    · show fs.allocated - (swapPopRemoved fs.allocs v).span.numPages =
        spanPagesSum (swapPopRest fs.allocs v)
      have hused := hwf.ledger
      rw [hrem]
      omega

theorem fuzzRelease_wf {fs fs' : FuzzState} {v : Nat} (hwf : WF fs)
    (h : fuzzRelease fs v = some fs') : WF fs' := by
  unfold fuzzRelease at h
  rw [Option.some.injEq] at h
  subst h
  obtain ⟨d, h1, h2, h3, h4, h5⟩ :=
    releaseIdleGo_spec fs.alloc.pages.length fs.alloc.pages (v % 256) 0
  constructor
  · intro si hsi
    apply runIs_of_pointwise (hwf.spans_used si hsi)
    intro i hi
    show (releaseIdleGo fs.alloc.pages.length fs.alloc.pages (v % 256) 0).2[i]? =
      some .used
    rw [releaseIdleGo_used_pointwise _ _ _ _ _ hi]
    exact hi
  · exact hwf.disj
  · show countSt .used
      (releaseIdleGo fs.alloc.pages.length fs.alloc.pages (v % 256) 0).2 = _
    rw [h4]
    exact hwf.used_count
  · exact hwf.ledger

theorem fuzzReleaseBreaking_wf {fs fs' : FuzzState} {v : Nat} (hwf : WF fs)
    (h : fuzzReleaseBreaking fs v = some fs') : WF fs' := by
  unfold fuzzReleaseBreaking at h
  split at h
  · rw [Option.some.injEq] at h
    subst h
    unfold releaseAtLeastNPagesBreakingHugepages
    obtain ⟨d, h1, h2, h3, h4, h5⟩ :=
      releaseIdleGo_spec fs.alloc.pages.length fs.alloc.pages (v % 256) 0
    obtain ⟨m1, m2, m3, m4, m5⟩ := markFreeUnmapped_spec
      (releaseIdleGo fs.alloc.pages.length fs.alloc.pages (v % 256) 0).2
      ((v % 256) - (releaseIdleGo fs.alloc.pages.length fs.alloc.pages (v % 256) 0).1)
    split
    · constructor
      · intro si hsi
        apply runIs_of_pointwise (hwf.spans_used si hsi)
        intro i hi
        show (releaseIdleGo fs.alloc.pages.length fs.alloc.pages (v % 256) 0).2[i]? =
          some .used
        rw [releaseIdleGo_used_pointwise _ _ _ _ _ hi]
        exact hi
      · exact hwf.disj
      · show countSt .used
          (releaseIdleGo fs.alloc.pages.length fs.alloc.pages (v % 256) 0).2 = _
        rw [h4]
        exact hwf.used_count
      · exact hwf.ledger
    · constructor
      · intro si hsi
        apply runIs_of_pointwise (hwf.spans_used si hsi)
        intro i hi
        apply markFreeUnmapped_used_pointwise
        rw [releaseIdleGo_used_pointwise _ _ _ _ _ hi]
        exact hi
      · exact hwf.disj
      · show countSt .used (markFreeUnmapped
          (releaseIdleGo fs.alloc.pages.length fs.alloc.pages (v % 256) 0).2
          ((v % 256) -
            (releaseIdleGo fs.alloc.pages.length fs.alloc.pages (v % 256) 0).1)).2 = _
        rw [m3, h4]
        exact hwf.used_count
      · exact hwf.ledger
  · exact absurd h (by simp)

theorem fuzzStep_eq0 {op : Nat} (h : op % 8 = 0) (fs : FuzzState) (v : Nat) :
    fuzzStep fs op v = fuzzAlloc fs v := by
  unfold fuzzStep
  rw [if_pos h]

theorem fuzzStep_eq1 {op : Nat} (h : op % 8 = 1) (fs : FuzzState) (v : Nat) :
    fuzzStep fs op v = fuzzDealloc fs v := by
  unfold fuzzStep
  rw [if_neg (by omega), if_pos h]

theorem fuzzStep_eq2 {op : Nat} (h : op % 8 = 2) (fs : FuzzState) (v : Nat) :
    fuzzStep fs op v = fuzzRelease fs v := by
  unfold fuzzStep
  rw [if_neg (by omega), if_neg (by omega), if_pos h]

theorem fuzzStep_eq3 {op : Nat} (h : op % 8 = 3) (fs : FuzzState) (v : Nat) :
    fuzzStep fs op v = fuzzReleaseBreaking fs v := by
  unfold fuzzStep
  rw [if_neg (by omega), if_neg (by omega), if_neg (by omega), if_pos h]

theorem fuzzStep_eq4 {op : Nat} (h : op % 8 = 4) (fs : FuzzState) (v : Nat) :
    fuzzStep fs op v = fuzzPrintPbtxt fs := by
  unfold fuzzStep
  rw [if_neg (by omega), if_neg (by omega), if_neg (by omega), if_neg (by omega),
    if_pos h]

theorem fuzzStep_eq5 {op : Nat} (h : op % 8 = 5) (fs : FuzzState) (v : Nat) :
    fuzzStep fs op v = fuzzPrint fs v := by
  unfold fuzzStep
  rw [if_neg (by omega), if_neg (by omega), if_neg (by omega), if_neg (by omega),
    if_neg (by omega), if_pos h]

theorem fuzzStep_eq6 {op : Nat} (h : op % 8 = 6) (fs : FuzzState) (v : Nat) :
    fuzzStep fs op v = fuzzCheckStats fs := by
  unfold fuzzStep
  rw [if_neg (by omega), if_neg (by omega), if_neg (by omega), if_neg (by omega),
    if_neg (by omega), if_neg (by omega), if_pos h]

theorem fuzzStep_eq7 {op : Nat} (h : op % 8 = 7) (fs : FuzzState) (v : Nat) :
    fuzzStep fs op v = some fs := by
  unfold fuzzStep
  rw [if_neg (by omega), if_neg (by omega), if_neg (by omega), if_neg (by omega),
    if_neg (by omega), if_neg (by omega), if_neg (by omega)]

theorem fuzzStep_wf {fs fs' : FuzzState} {op v : Nat} (hwf : WF fs)
    (h : fuzzStep fs op v = some fs') : WF fs' := by
  have h8 : op % 8 = 0 ∨ op % 8 = 1 ∨ op % 8 = 2 ∨ op % 8 = 3 ∨ op % 8 = 4 ∨
      op % 8 = 5 ∨ op % 8 = 6 ∨ op % 8 = 7 := by omega
  rcases h8 with h8 | h8 | h8 | h8 | h8 | h8 | h8 | h8
  · rw [fuzzStep_eq0 h8] at h
    exact fuzzAlloc_wf hwf h
  · rw [fuzzStep_eq1 h8] at h
    exact fuzzDealloc_wf hwf h
  · rw [fuzzStep_eq2 h8] at h
    exact fuzzRelease_wf hwf h
  · rw [fuzzStep_eq3 h8] at h
    exact fuzzReleaseBreaking_wf hwf h
  · rw [fuzzStep_eq4 h8] at h
    unfold fuzzPrintPbtxt at h
    rw [Option.some.injEq] at h
    subst h
    exact hwf
  · rw [fuzzStep_eq5 h8] at h
    unfold fuzzPrint at h
    rw [Option.some.injEq] at h
    subst h
    exact hwf
  · rw [fuzzStep_eq6 h8] at h
    unfold fuzzCheckStats at h
    split at h
    · rw [Option.some.injEq] at h
      subst h
      exact hwf
    · exact absurd h (by simp)
  · rw [fuzzStep_eq7 h8] at h
    rw [Option.some.injEq] at h
    subst h
    exact hwf

theorem fuzzRun_wf :
    ∀ (ops : List (Nat × Nat)) (fs fs' : FuzzState), WF fs →
      fuzzRun ops fs = some fs' → WF fs'
  | [], fs, fs', hwf, h => by
    have h' : some fs = some fs' := h
    rw [Option.some.injEq] at h'
    subst h'
    exact hwf
  | (op, v) :: ops, fs, fs', hwf, h => by
    rcases hstep : fuzzStep fs op v with _ | fs2
    · rw [show fuzzRun ((op, v) :: ops) fs =
          (match fuzzStep fs op v with
           | none => none
           | some fs2 => fuzzRun ops fs2) from rfl, hstep] at h
      exact absurd h (by simp)
    · rw [show fuzzRun ((op, v) :: ops) fs =
          (match fuzzStep fs op v with
           | none => none
           | some fs2 => fuzzRun ops fs2) from rfl, hstep] at h
      exact fuzzRun_wf ops fs2 fs' (fuzzStep_wf hwf hstep) h

/-- The accounting consequence of well-formedness: the stats snapshot
splits the reserved bytes into free, unmapped, and live-span bytes, and the
driver's `used_bytes` computation recovers exactly the ledger's bytes. -/
theorem wf_stats {fs : FuzzState} (h : WF fs) :
    fs.alloc.stats.system_bytes =
      fs.alloc.stats.free_bytes + fs.alloc.stats.unmapped_bytes +
        inBytes (spanPagesSum fs.allocs) ∧
    fs.alloc.stats.system_bytes - fs.alloc.stats.free_bytes -
      fs.alloc.stats.unmapped_bytes = inBytes fs.allocated := by
  have hpart := countSt_partition fs.alloc.pages
  have hcnt := h.used_count
  have hled := h.ledger
  unfold AllocState.stats
  simp only [inBytes, kPageSize]
  constructor <;> omega

theorem fuzzCleanup_allocated :
    ∀ (l : List SpanInfo) (st : AllocState) (acc : Nat),
      (fuzzCleanup l st acc).2 = acc - spanPagesSum l
  | [], st, acc => by simp [fuzzCleanup, spanPagesSum]
  | si :: rest, st, acc => by
    rw [show fuzzCleanup (si :: rest) st acc =
        fuzzCleanup rest (deleteSpan st si.span si.objects_per_span)
          (acc - si.span.numPages) from rfl]
    rw [fuzzCleanup_allocated rest _ _]
    simp [spanPagesSum]
    omega

/-! ## The counterfactual-mode simulation -/

/-- Replace the predictor configuration's mode by `disabled` and forget the
recorded predictor statistics, keeping everything placement-relevant. -/
def eraseAlloc (st : AllocState) : AllocState :=
  { pages := st.pages, osBudget := st.osBudget,
    opts := ⟨.disabled, st.opts.strategy, st.opts.shortLivedThreshold⟩,
    predictorRecords := 0 }

/-- `eraseAlloc` lifted to driver states. -/
def eraseFuzz (fs : FuzzState) : FuzzState :=
  { alloc := eraseAlloc fs.alloc, allocs := fs.allocs,
    allocated := fs.allocated }

theorem newAligned_records {st : AllocState} {len align k : Nat} {s : Span}
    {a : AllocState} (h : newAligned st len align k = (.ok s, a)) :
    a.predictorRecords = (recordPrediction st).predictorRecords := by
  unfold newAligned at h
  split at h
  · simp at h
  · split at h
    · rw [Prod.mk.injEq] at h
      rw [← h.2]
      unfold recordPrediction
      cases st.opts.mode <;> rfl
    · split at h
      · rw [Prod.mk.injEq] at h
        rw [← h.2]
        unfold recordPrediction
        cases st.opts.mode <;> rfl
      · simp at h

theorem classifyShortLived_erase (st : AllocState) (len : Nat) :
    classifyShortLived (eraseAlloc st) len = classifyShortLived st len := by
  unfold classifyShortLived eraseAlloc
  rfl

theorem newAligned_erase (st : AllocState) (len align k : Nat)
    (hne : st.opts.mode ≠ .enabled) :
    newAligned (eraseAlloc st) len align k =
      ((newAligned st len align k).1, eraseAlloc (newAligned st len align k).2) := by
  unfold newAligned
  have hpick : pickRun (eraseAlloc st) len align = pickRun st len align := by
    rw [pickRun_not_enabled (by simp [eraseAlloc]), pickRun_not_enabled hne]
    rfl
  split
  · rfl
  · rw [hpick]
    rcases hf : pickRun st len align with _ | s0
    · simp only [hf]
      by_cases hb : hugePagesNeeded st.pages.length len align ≤ st.osBudget
      · rw [if_pos (show hugePagesNeeded (eraseAlloc st).pages.length len align ≤
            (eraseAlloc st).osBudget from hb), if_pos hb]
        unfold recordPrediction eraseAlloc
        cases st.opts.mode <;> rfl
      · rw [if_neg (show ¬hugePagesNeeded (eraseAlloc st).pages.length len align ≤
            (eraseAlloc st).osBudget from hb), if_neg hb]
    · simp only [hf]
      unfold recordPrediction eraseAlloc
      cases st.opts.mode <;> rfl

theorem recordPrediction_records_cf {st : AllocState}
    (h : st.opts.mode = .counterfactual) :
    (recordPrediction st).predictorRecords = st.predictorRecords + 1 := by
  unfold recordPrediction
  rw [h]

theorem recordPrediction_records_dis {st : AllocState}
    (h : st.opts.mode = .disabled) :
    (recordPrediction st).predictorRecords = st.predictorRecords := by
  unfold recordPrediction
  rw [h]

theorem deleteSpan_erase (st : AllocState) (sp : Span) (k : Nat) :
    deleteSpan (eraseAlloc st) sp k = eraseAlloc (deleteSpan st sp k) := rfl

theorem stats_erase (st : AllocState) :
    (eraseAlloc st).stats = st.stats := rfl

theorem releaseAtLeastNPages_erase (st : AllocState) (n : Nat) :
    releaseAtLeastNPages (eraseAlloc st) n =
      ((releaseAtLeastNPages st n).1, eraseAlloc (releaseAtLeastNPages st n).2) := rfl

theorem releaseBreaking_erase (st : AllocState) (n : Nat) :
    releaseAtLeastNPagesBreakingHugepages (eraseAlloc st) n =
      ((releaseAtLeastNPagesBreakingHugepages st n).1,
       eraseAlloc (releaseAtLeastNPagesBreakingHugepages st n).2) := by
  unfold releaseAtLeastNPagesBreakingHugepages
  show (if n ≤ (releaseIdleGo st.pages.length st.pages n 0).1 then _ else _) = _
  split <;> rfl

theorem releaseBreaking_erase_fst (st : AllocState) (n : Nat) :
    (releaseAtLeastNPagesBreakingHugepages (eraseAlloc st) n).1 =
      (releaseAtLeastNPagesBreakingHugepages st n).1 := by
  rw [releaseBreaking_erase]

theorem releaseBreaking_erase_snd (st : AllocState) (n : Nat) :
    (releaseAtLeastNPagesBreakingHugepages (eraseAlloc st) n).2 =
      eraseAlloc (releaseAtLeastNPagesBreakingHugepages st n).2 := by
  rw [releaseBreaking_erase]

theorem fuzzStep_erase (fs : FuzzState) (op v : Nat)
    (hne : fs.alloc.opts.mode ≠ .enabled) :
    fuzzStep (eraseFuzz fs) op v = Option.map eraseFuzz (fuzzStep fs op v) := by
  have h8 : op % 8 = 0 ∨ op % 8 = 1 ∨ op % 8 = 2 ∨ op % 8 = 3 ∨ op % 8 = 4 ∨
      op % 8 = 5 ∨ op % 8 = 6 ∨ op % 8 = 7 := by omega
  rcases h8 with h8 | h8 | h8 | h8 | h8 | h8 | h8 | h8
  · rw [fuzzStep_eq0 h8, fuzzStep_eq0 h8]
    unfold fuzzAlloc
    have hcall : allocCall (eraseFuzz fs).alloc v =
        ((allocCall fs.alloc v).1, eraseAlloc (allocCall fs.alloc v).2) := by
      unfold allocCall
      split
      · exact newAligned_erase fs.alloc _ _ _ hne
      · exact newAligned_erase fs.alloc _ _ _ hne
    rw [hcall]
    rcases hac : allocCall fs.alloc v with ⟨out, a⟩
    rcases out with s | _ | _
    · generalize decodeLength v = L
      generalize decodeObjects v = O
      show (if L ≤ s.numPages then
          some { alloc := eraseAlloc a
                 allocs := (eraseFuzz fs).allocs ++ [⟨s, O⟩]
                 allocated := (eraseFuzz fs).allocated + s.numPages }
        else none) =
        Option.map eraseFuzz (if L ≤ s.numPages then
          some { alloc := a
                 allocs := fs.allocs ++ [⟨s, O⟩]
                 allocated := fs.allocated + s.numPages }
        else none)
      by_cases hd : L ≤ s.numPages
      · rw [if_pos hd, if_pos hd]
        rfl
      · rw [if_neg hd, if_neg hd]
        rfl
    · rfl
    · rfl
  · rw [fuzzStep_eq1 h8, fuzzStep_eq1 h8]
    unfold fuzzDealloc
    show (if fs.allocs.isEmpty then _ else _) = _
    split
    · rfl
    · rfl
  · rw [fuzzStep_eq2 h8, fuzzStep_eq2 h8]
    unfold fuzzRelease
    rfl
  · rw [fuzzStep_eq3 h8, fuzzStep_eq3 h8]
    unfold fuzzReleaseBreaking
    generalize v % 256 = m
    show (if min (inBytes m) (eraseAlloc fs.alloc).stats.free_bytes ≤
        inBytes (releaseAtLeastNPagesBreakingHugepages (eraseAlloc fs.alloc) m).1
        then
          some { alloc := (releaseAtLeastNPagesBreakingHugepages
                   (eraseAlloc fs.alloc) m).2
                 allocs := (eraseFuzz fs).allocs
                 allocated := (eraseFuzz fs).allocated }
        else none) =
      Option.map eraseFuzz (if min (inBytes m) fs.alloc.stats.free_bytes ≤
        inBytes (releaseAtLeastNPagesBreakingHugepages fs.alloc m).1 then
          some { alloc := (releaseAtLeastNPagesBreakingHugepages fs.alloc m).2
                 allocs := fs.allocs
                 allocated := fs.allocated }
        else none)
    rw [stats_erase, releaseBreaking_erase_fst, releaseBreaking_erase_snd]
    by_cases hc : min (inBytes m) fs.alloc.stats.free_bytes ≤
        inBytes (releaseAtLeastNPagesBreakingHugepages fs.alloc m).1
    · rw [if_pos hc, if_pos hc]
      rfl
    · rw [if_neg hc, if_neg hc]
      rfl
  · rw [fuzzStep_eq4 h8, fuzzStep_eq4 h8]
    rfl
  · rw [fuzzStep_eq5 h8, fuzzStep_eq5 h8]
    rfl
  · rw [fuzzStep_eq6 h8, fuzzStep_eq6 h8]
    unfold fuzzCheckStats
    show (if fs.alloc.stats.system_bytes - fs.alloc.stats.free_bytes -
        fs.alloc.stats.unmapped_bytes = inBytes fs.allocated then _ else _) = _
    split
    · rfl
    · rfl
  · rw [fuzzStep_eq7 h8, fuzzStep_eq7 h8]
    rfl

theorem fuzzStep_opts_records {fs fs' : FuzzState} {op v : Nat}
    (h : fuzzStep fs op v = some fs') :
    fs'.alloc.opts = fs.alloc.opts ∧
    fs'.alloc.predictorRecords =
      (if op % 8 = 0 then (recordPrediction fs.alloc).predictorRecords
       else fs.alloc.predictorRecords) := by
  have h8 : op % 8 = 0 ∨ op % 8 = 1 ∨ op % 8 = 2 ∨ op % 8 = 3 ∨ op % 8 = 4 ∨
      op % 8 = 5 ∨ op % 8 = 6 ∨ op % 8 = 7 := by omega
  rcases h8 with h8 | h8 | h8 | h8 | h8 | h8 | h8 | h8
  · -- case 0: allocate
    rw [if_pos h8]
    rw [fuzzStep_eq0 h8] at h
    have h' : fuzzAlloc fs v = some fs' := h
    unfold fuzzAlloc at h'
    split at h'
    · rename_i s a heq
      split at h'
      · rw [Option.some.injEq] at h'
        subst h'
        obtain ⟨al, hal⟩ : ∃ al,
            newAligned fs.alloc (decodeLength v) al (decodeObjects v) =
              (.ok s, a) := by
          unfold allocCall at heq
          split at heq
          · exact ⟨decodeAlign v, heq⟩
          · exact ⟨1, heq⟩
        exact ⟨(newAligned_ok hal).2.2.2.1, newAligned_records hal⟩
      · exact absurd h' (by simp)
    · exact absurd h' (by simp)
    · exact absurd h' (by simp)
  all_goals rw [if_neg (by omega)]
  · -- case 1: deallocate
    rw [fuzzStep_eq1 h8] at h
    have h' : fuzzDealloc fs v = some fs' := h
    unfold fuzzDealloc at h'
    split at h'
    · rw [Option.some.injEq] at h'
      subst h'
      exact ⟨rfl, rfl⟩
    · rw [Option.some.injEq] at h'
      subst h'
      exact ⟨rfl, rfl⟩
  · -- case 2
    rw [fuzzStep_eq2 h8] at h
    have h' : fuzzRelease fs v = some fs' := h
    unfold fuzzRelease at h'
    rw [Option.some.injEq] at h'
    subst h'
    exact ⟨rfl, rfl⟩
  · -- case 3
    rw [fuzzStep_eq3 h8] at h
    have h' : fuzzReleaseBreaking fs v = some fs' := h
    unfold fuzzReleaseBreaking at h'
    split at h'
    · rw [Option.some.injEq] at h'
      subst h'
      unfold releaseAtLeastNPagesBreakingHugepages
      split
      · exact ⟨rfl, rfl⟩
      · exact ⟨rfl, rfl⟩
    · exact absurd h' (by simp)
  · -- case 4
    rw [fuzzStep_eq4 h8] at h
    have h' : some fs = some fs' := h
    rw [Option.some.injEq] at h'
    subst h'
    exact ⟨rfl, rfl⟩
  · -- case 5
    rw [fuzzStep_eq5 h8] at h
    have h' : some fs = some fs' := h
    rw [Option.some.injEq] at h'
    subst h'
    exact ⟨rfl, rfl⟩
  · -- case 6
    rw [fuzzStep_eq6 h8] at h
    have h' : fuzzCheckStats fs = some fs' := h
    unfold fuzzCheckStats at h'
    split at h'
    · rw [Option.some.injEq] at h'
      subst h'
      exact ⟨rfl, rfl⟩
    · exact absurd h' (by simp)
  · -- case 7
    rw [fuzzStep_eq7 h8] at h
    have h' : some fs = some fs' := h
    rw [Option.some.injEq] at h'
    subst h'
    exact ⟨rfl, rfl⟩

/-- Running the driver on the records-erased, disabled-mode mirror of a
state mirrors the original run step for step: placement, ledger, crashes
and all observable allocator state coincide. -/
theorem fuzzRun_erase :
    ∀ (ops : List (Nat × Nat)) (fs : FuzzState),
      fs.alloc.opts.mode ≠ .enabled →
      fuzzRun ops (eraseFuzz fs) = Option.map eraseFuzz (fuzzRun ops fs)
  | [], fs, hne => rfl
  | (op, v) :: ops, fs, hne => by
    rw [show fuzzRun ((op, v) :: ops) (eraseFuzz fs) =
        (match fuzzStep (eraseFuzz fs) op v with
         | none => none
         | some fs2 => fuzzRun ops fs2) from rfl]
    rw [show fuzzRun ((op, v) :: ops) fs =
        (match fuzzStep fs op v with
         | none => none
         | some fs2 => fuzzRun ops fs2) from rfl]
    rw [fuzzStep_erase fs op v hne]
    rcases hstep : fuzzStep fs op v with _ | fs2
    · rfl
    · show fuzzRun ops (eraseFuzz fs2) = Option.map eraseFuzz (fuzzRun ops fs2)
      exact fuzzRun_erase ops fs2
        (by rw [(fuzzStep_opts_records hstep).1]; exact hne)

/-- The predictor-record counters along a completed run: unchanged in
`disabled` mode, incremented once per executed allocation in
`counterfactual` mode. -/
theorem fuzzRun_records :
    ∀ (ops : List (Nat × Nat)) (fs fs' : FuzzState),
      fuzzRun ops fs = some fs' →
      fs'.alloc.opts = fs.alloc.opts ∧
      (fs.alloc.opts.mode = .counterfactual →
        fs'.alloc.predictorRecords = fs.alloc.predictorRecords +
          (ops.filter (fun p => p.1 % 8 == 0)).length) ∧
      (fs.alloc.opts.mode = .disabled →
        fs'.alloc.predictorRecords = fs.alloc.predictorRecords)
  | [], fs, fs', h => by
    have h' : some fs = some fs' := h
    rw [Option.some.injEq] at h'
    subst h'
    exact ⟨rfl, fun _ => by simp, fun _ => rfl⟩
  | (op, v) :: ops, fs, fs', h => by
    rw [show fuzzRun ((op, v) :: ops) fs =
        (match fuzzStep fs op v with
         | none => none
         | some fs2 => fuzzRun ops fs2) from rfl] at h
    rcases hstep : fuzzStep fs op v with _ | fs2 <;> rw [hstep] at h
    · exact absurd h (by simp)
    · obtain ⟨ho, hr⟩ := fuzzStep_opts_records hstep
      obtain ⟨io, icf, idis⟩ := fuzzRun_records ops fs2 fs' h
      refine ⟨io.trans ho, ?_, ?_⟩
      · intro hcf
        have h2 := icf (by rw [ho]; exact hcf)
        rw [h2, hr]
        by_cases h0 : op % 8 = 0
        · rw [if_pos h0, recordPrediction_records_cf hcf]
          rw [List.filter_cons]
          rw [if_pos (by simpa using h0)]
          simp
          omega
        · rw [if_neg h0, List.filter_cons,
            if_neg (by simpa using h0)]
      · intro hdis
        have h2 := idis (by rw [ho]; exact hdis)
        rw [h2, hr]
        by_cases h0 : op % 8 = 0
        · rw [if_pos h0, recordPrediction_records_dis hdis]
        · rw [if_neg h0]

/-- Sample predictor options used by concrete witnesses. -/
def samplePrediction : LifetimePredictionOptions :=
  ⟨.disabled, .predictedLifetimeRegions, 3⟩

/-- A sample allocator state whose reserved pages all lie in one
partially-used huge page: a used page next to a free one. -/
def sampleAlloc : AllocState :=
  { pages := [.used, .free], osBudget := 0, opts := samplePrediction,
    predictorRecords := 0 }

/-- A sample allocator state holding a short run of already-reserved free
pages, so a small request is served in place with no fresh reservation. -/
def sampleFree : AllocState :=
  { pages := [.free, .free, .free], osBudget := 0, opts := samplePrediction,
    predictorRecords := 0 }

/-! ## The claims -/

/-- Claim C1: after any sequence of driver operations on one allocator
instance, the stats snapshot satisfies
`system_bytes = free_bytes + unmapped_bytes + (bytes of all live spans)`;
equivalently `system_bytes - free_bytes - unmapped_bytes` equals the
live-allocated page total converted to bytes. -/
theorem claim_c1_accounting (opts : LifetimePredictionOptions)
    (budget : Nat) (ops : List (Nat × Nat)) (fs : FuzzState)
    (h : fuzzRun ops (initFuzz opts budget) = some fs) :
    fs.alloc.stats.system_bytes =
      fs.alloc.stats.free_bytes + fs.alloc.stats.unmapped_bytes +
        inBytes (spanPagesSum fs.allocs) ∧
    fs.alloc.stats.system_bytes - fs.alloc.stats.free_bytes -
      fs.alloc.stats.unmapped_bytes = inBytes fs.allocated :=
  wf_stats (fuzzRun_wf ops _ fs (initFuzz_wf opts budget) h)

theorem claim_c1_accounting_witness :
    ∃ fs, fuzzRun [(6, 0)] (initFuzz samplePrediction 1) = some fs ∧
      fs.alloc.stats.system_bytes =
        fs.alloc.stats.free_bytes + fs.alloc.stats.unmapped_bytes +
          inBytes (spanPagesSum fs.allocs) := by
  obtain ⟨fs, hfs⟩ : ∃ fs,
      fuzzRun [(6, 0)] (initFuzz samplePrediction 1) = some fs := ⟨_, rfl⟩
  exact ⟨fs, hfs, (claim_c1_accounting samplePrediction 1 [(6, 0)] fs hfs).1⟩

/-- Claim C2: `ReleaseAtLeastNPagesBreakingHugepages(n)` returns a released
length whose byte value is at least the smaller of `n` in bytes and the
free bytes of the stats snapshot taken at call time. -/
theorem claim_c2_breaking_release_lower_bound (st : AllocState) (n : Nat) :
    min (inBytes n) st.stats.free_bytes ≤
      inBytes (releaseAtLeastNPagesBreakingHugepages st n).1 := by
  have h := releaseBreaking_min st n
  have hfb : st.stats.free_bytes = inBytes (countSt .free st.pages) := rfl
  rw [hfb, ← inBytes_min]
  exact inBytes_le h

/-- Claim C3: for every request with length between 1 and one page less
than a huge page, the span returned by `New` or `NewAligned` covers at
least `length` pages. -/
theorem claim_c3_monotonic_sizing (st : AllocState) (len align k : Nat)
    (s : Span) (a : AllocState) (hlen1 : 1 ≤ len)
    (hlen2 : len ≤ kPagesPerHugePage - 1)
    (h : newSpan st len k = (.ok s, a) ∨ newAligned st len align k = (.ok s, a)) :
    len ≤ s.numPages := by
  rcases h with h | h
  · rw [(newAligned_ok h).1]
  · rw [(newAligned_ok h).1]

theorem claim_c3_monotonic_sizing_witness :
    1 ≤ 2 ∧ 2 ≤ kPagesPerHugePage - 1 ∧
    ∃ s a, newSpan sampleFree 2 0 = (.ok s, a) ∧
      2 ≤ s.numPages := by
  refine ⟨by decide, by decide, ?_⟩
  obtain ⟨s, a, hsa⟩ : ∃ s a,
      newSpan sampleFree 2 0 = (.ok s, a) := ⟨_, _, rfl⟩
  exact ⟨s, a, hsa,
    claim_c3_monotonic_sizing _ 2 1 0 s a (by decide) (by decide) (Or.inl hsa)⟩

/-- Claim C4: the driver's cleanup loop — deallocating every outstanding
span with its recorded object count — brings the live-allocated total to
exactly zero, in pages and in bytes. -/
theorem claim_c4_conservation (opts : LifetimePredictionOptions)
    (budget : Nat) (ops : List (Nat × Nat)) (fs : FuzzState)
    (h : fuzzRun ops (initFuzz opts budget) = some fs) :
    (fuzzCleanup fs.allocs fs.alloc fs.allocated).2 = 0 ∧
    inBytes (fuzzCleanup fs.allocs fs.alloc fs.allocated).2 = 0 := by
  have hwf := fuzzRun_wf ops _ fs (initFuzz_wf opts budget) h
  have hc := fuzzCleanup_allocated fs.allocs fs.alloc fs.allocated
  have hz : (fuzzCleanup fs.allocs fs.alloc fs.allocated).2 = 0 := by
    rw [hc, hwf.ledger]
    omega
  exact ⟨hz, by rw [hz]; rfl⟩

theorem claim_c4_conservation_witness :
    ∃ fs, fuzzRun [(5, 2)] (initFuzz samplePrediction 1) = some fs ∧
      (fuzzCleanup fs.allocs fs.alloc fs.allocated).2 = 0 := by
  obtain ⟨fs, hfs⟩ : ∃ fs,
      fuzzRun [(5, 2)] (initFuzz samplePrediction 1) = some fs := ⟨_, rfl⟩
  exact ⟨fs, hfs, (claim_c4_conservation samplePrediction 1 [(5, 2)] fs hfs).1⟩

/-- Claim C5: when the backing store cannot satisfy the reservation, the
allocation returns a failure result with no span, without retrying and
without touching the allocator state; an exhausted backing store under a
valid request always produces exactly that failure. -/
theorem claim_c5_oom_failure (st : AllocState) (len align k : Nat) :
    ((newAligned st len align k).1 = .oom →
      (newAligned st len align k).2 = st) ∧
    (st.pages = [] → st.osBudget = 0 → 1 ≤ len → 1 ≤ align →
      align ≤ kPagesPerHugePage → newAligned st len align k = (.oom, st)) :=
  ⟨newAligned_oom st len align k,
   fun h1 h2 h3 h4 h5 => newAligned_oom_of h1 h2 h3 h4 h5⟩

theorem claim_c5_oom_failure_witness :
    newAligned (initAlloc samplePrediction 0) 2 1 0 =
      (.oom, initAlloc samplePrediction 0) :=
  (claim_c5_oom_failure (initAlloc samplePrediction 0) 2 1 0).2 rfl rfl
    (by decide) (by decide) (by decide)

/-- Claim C6: `ReleaseAtLeastNPages` never touches a page whose huge page
also holds a used page (it releases only fully-idle huge pages), and on an
allocator whose free pages all lie inside partially-used huge pages a
request larger than the total free pages releases 0. -/
theorem claim_c6_conservative_release (st : AllocState) (n : Nat) :
    (∀ i i' : Nat, i' / kPagesPerHugePage = i / kPagesPerHugePage →
      st.pages[i']? = some .used →
      (releaseAtLeastNPages st n).2.pages[i]? = st.pages[i]?) ∧
    ((∀ i : Nat, st.pages[i]? = some .free →
        ∃ i', i' / kPagesPerHugePage = i / kPagesPerHugePage ∧
          st.pages[i']? = some .used) →
      countSt .free st.pages < n →
      (releaseAtLeastNPages st n).1 = 0) := by
  constructor
  · intro i i' hsame hused
    exact releaseAtLeastNPages_frame st n i (isIdleBlock_false_of_used hsame hused)
  · intro h _
    exact (releaseAtLeastNPages_zero st n h).1

theorem claim_c6_conservative_release_witness :
    (releaseAtLeastNPages sampleAlloc 255).1 = 0 ∧
    (releaseAtLeastNPages sampleAlloc 255).2.pages[1]? = sampleAlloc.pages[1]? := by
  constructor
  · apply (claim_c6_conservative_release sampleAlloc 255).2
    · intro i hfree
      refine ⟨0, ?_, by decide⟩
      have hi := getElem?_some_lt hfree
      have hl : sampleAlloc.pages.length = 2 := by decide
      rw [hl] at hi
      simp only [kPagesPerHugePage]
      omega
    · decide
  · exact (claim_c6_conservative_release sampleAlloc 255).1 1 0 (by decide)
      (by decide)

/-- Claim C7: the same operation sequence run under `counterfactual` mode
and under `disabled` mode (all other configuration equal) makes identical
placement decisions — the disabled run is exactly the records-erased
mirror of the counterfactual run — while the counterfactual run updates
the recorded predictor statistics (once per executed allocation) and the
disabled run never does. -/
theorem claim_c7_counterfactual_mirrors_disabled (strat : LifetimeStrategy)
    (thr budget : Nat) (ops : List (Nat × Nat)) :
    fuzzRun ops (initFuzz ⟨.disabled, strat, thr⟩ budget) =
      Option.map eraseFuzz
        (fuzzRun ops (initFuzz ⟨.counterfactual, strat, thr⟩ budget)) ∧
    (∀ fsc fsd,
      fuzzRun ops (initFuzz ⟨.counterfactual, strat, thr⟩ budget) = some fsc →
      fuzzRun ops (initFuzz ⟨.disabled, strat, thr⟩ budget) = some fsd →
      fsd.alloc.pages = fsc.alloc.pages ∧ fsd.allocs = fsc.allocs ∧
      fsd.allocated = fsc.allocated ∧
      fsd.alloc.osBudget = fsc.alloc.osBudget ∧
      fsc.alloc.predictorRecords =
        (ops.filter (fun p => p.1 % 8 == 0)).length ∧
      fsd.alloc.predictorRecords = 0) := by
  have hinit : initFuzz ⟨.disabled, strat, thr⟩ budget =
      eraseFuzz (initFuzz ⟨.counterfactual, strat, thr⟩ budget) := rfl
  have herase := fuzzRun_erase ops
    (initFuzz ⟨.counterfactual, strat, thr⟩ budget)
    (by simp [initFuzz, initAlloc])
  constructor
  · rw [hinit]
    exact herase
  · intro fsc fsd hc hd
    rw [hinit, herase, hc] at hd
    simp only [Option.map_some', Option.some.injEq] at hd
    subst hd
    obtain ⟨_, hcf, _⟩ := fuzzRun_records ops _ fsc hc
    refine ⟨rfl, rfl, rfl, rfl, ?_, rfl⟩
    have := hcf rfl
    simpa [initFuzz, initAlloc] using this

theorem claim_c7_counterfactual_mirrors_disabled_witness :
    ∃ fsc fsd,
      fuzzRun [(0, 2)]
        (initFuzz ⟨.counterfactual, .alwaysShortLivedRegions, 3⟩ 1) = some fsc ∧
      fuzzRun [(0, 2)]
        (initFuzz ⟨.disabled, .alwaysShortLivedRegions, 3⟩ 1) = some fsd ∧
      fsd.alloc.pages = fsc.alloc.pages ∧
      fsc.alloc.predictorRecords = 1 ∧ fsd.alloc.predictorRecords = 0 := by
  obtain ⟨fsc, hc⟩ : ∃ x, fuzzRun [(0, 2)]
      (initFuzz ⟨.counterfactual, .alwaysShortLivedRegions, 3⟩ 1) = some x :=
    ⟨_, rfl⟩
  obtain ⟨fsd, hd⟩ : ∃ x, fuzzRun [(0, 2)]
      (initFuzz ⟨.disabled, .alwaysShortLivedRegions, 3⟩ 1) = some x :=
    ⟨_, rfl⟩
  obtain ⟨p1, _, _, _, p5, p6⟩ :=
    (claim_c7_counterfactual_mirrors_disabled .alwaysShortLivedRegions 3 1
      [(0, 2)]).2 fsc fsd hc hd
  exact ⟨fsc, fsd, hc, hd, p1, by rw [p5]; rfl, p6⟩

/-- Claim C8: every span returned by `NewAligned` starts at a page index
divisible by the requested alignment, and alignment values larger than one
huge page are rejected as a caller contract violation. -/
theorem claim_c8_alignment (st : AllocState) (len align k : Nat) :
    (∀ s a, newAligned st len align k = (.ok s, a) → s.first % align = 0) ∧
    (kPagesPerHugePage < align →
      newAligned st len align k = (.contractViolation, st)) :=
  ⟨fun _ _ h => (newAligned_ok h).2.2.1, fun h => newAligned_contract h⟩

theorem claim_c8_alignment_witness :
    (∃ s a, newAligned sampleFree 3 8 0 = (.ok s, a) ∧
      s.first % 8 = 0) ∧
    newAligned sampleFree 3 257 0 =
      (.contractViolation, sampleFree) := by
  constructor
  · obtain ⟨s, a, hsa⟩ : ∃ s a,
        newAligned sampleFree 3 8 0 = (.ok s, a) :=
      ⟨_, _, rfl⟩
    exact ⟨s, a, hsa, (claim_c8_alignment _ 3 8 0).1 s a hsa⟩
  · exact (claim_c8_alignment _ 3 257 0).2 (by decide)

/-- Claim C9: the rendering entry points (`Print` / `PrintInPbtxt`, driver
cases 5 and 4) are read-only: stepping either one returns the driver state
unchanged, so the allocator's observable state — stats snapshot and live
spans included — is untouched. -/
theorem claim_c9_print_read_only (fs : FuzzState) (v : Nat) :
    fuzzPrintPbtxt fs = some fs ∧ fuzzPrint fs v = some fs ∧
    (∀ op, op % 8 = 4 ∨ op % 8 = 5 → fuzzStep fs op v = some fs) := by
  refine ⟨rfl, rfl, ?_⟩
  intro op h
  rcases h with h | h
  · rw [fuzzStep_eq4 h]
    rfl
  · rw [fuzzStep_eq5 h]
    rfl

theorem claim_c9_print_read_only_witness :
    fuzzStep (initFuzz samplePrediction 1) 4 0 =
      some (initFuzz samplePrediction 1) ∧
    fuzzStep (initFuzz samplePrediction 1) 13 7 =
      some (initFuzz samplePrediction 1) :=
  ⟨(claim_c9_print_read_only (initFuzz samplePrediction 1) 0).2.2 4
      (Or.inl (by decide)),
   (claim_c9_print_read_only (initFuzz samplePrediction 1) 7).2.2 13
      (Or.inr (by decide))⟩

/-- Claim C10: at every operation boundary of the driver loop, the running
counter `allocated` equals the sum of `num_pages` over exactly the spans
currently held in the `allocs` vector, so the case-6 comparison of used
bytes against `allocated` is a faithful check of live allocation. -/
theorem claim_c10_ledger (opts : LifetimePredictionOptions) (budget : Nat)
    (ops : List (Nat × Nat)) (fs : FuzzState)
    (h : fuzzRun ops (initFuzz opts budget) = some fs) :
    fs.allocated = spanPagesSum fs.allocs :=
  (fuzzRun_wf ops _ fs (initFuzz_wf opts budget) h).ledger

theorem claim_c10_ledger_witness :
    ∃ fs, fuzzRun [(4, 0), (6, 1)] (initFuzz samplePrediction 1) = some fs ∧
      fs.allocated = spanPagesSum fs.allocs := by
  obtain ⟨fs, hfs⟩ : ∃ fs,
      fuzzRun [(4, 0), (6, 1)] (initFuzz samplePrediction 1) = some fs :=
    ⟨_, rfl⟩
  exact ⟨fs, hfs, claim_c10_ledger samplePrediction 1 [(4, 0), (6, 1)] fs hfs⟩

end HPAA
